import Mathlib

/-!
# cshantyc driver (`main.cpp`)

A shallow embedding of the command-line driver of the cshanty compiler front
end.  The driver only sequences phases whose code lives in other translation
units (`Scanner`, `Parser`, `NameAnalysis::build`, `ASTNode::unparse`); those
are taken as parameters of the model (the record `Env`).  Everything the
driver does that is visible from outside the process is recorded in a
chronological list of `Event`s, and every call into the environment receives
the events so far, so an environment may answer differently at different
moments of a run (for instance after a file has been overwritten).
-/

namespace cshanty

/-! ## The driver

The routines of `main.cpp`, in the order of the source. -/

/-- Error objects the driver has handlers for (`catch (ToDoError * e)` and
`catch (InternalError * e)`), each carrying its `msg()`.  The phases are taken
to raise objects of these two kinds only. -/
inductive Exn where
  | toDo (msg : String)
  | internal (msg : String)
  deriving DecidableEq, Repr

/-- How the process ends: `exit(n)` or `return n` from `main`. -/
inductive Exit where
  | code (n : Nat)
  deriving DecidableEq, Repr

/-- Destination of an output phase: `std::cout` (path `"--"`) or a file. -/
inductive Dest where
  | stdout
  | file (path : String)
  deriving DecidableEq, Repr

/-- A `cshanty::NameAnalysis` object as far as the driver looks into it: the
field `ast`, a handle on the annotated tree (trees are handles throughout:
the driver passes pointers on and never looks inside a node). -/
structure NameAnalysis where
  ast : Nat
  deriving DecidableEq, Repr

/-- Observable steps of a run, in the order they happen. -/
inductive Event where
  /-- one statement writing to `std::cerr` -/
  | err (text : String)
  /-- the `new std::ifstream(argv[1])` at the top of `main`, with `good()` -/
  | probe (path : String) (good : Bool)
  /-- an `std::ifstream inStream(path)` inside a phase, with `good()` -/
  | openIn (path : String) (good : Bool)
  /-- an `std::ofstream outStream(path)` inside a phase, with `good()` -/
  | openOut (path : String) (good : Bool)
  /-- a call `scanner.outputTokens(out)` on the input `inPath`, and the text emitted -/
  | tokens (inPath : String) (dest : Dest) (text : String)
  /-- a call `parser.parse()` on the input `inPath` -/
  | parserRun (inPath : String)
  /-- a call `NameAnalysis::build(ast)` -/
  | build (ast : Nat)
  /-- a call `ast->unparse(out, indent)`, and the text emitted -/
  | unparse (ast : Nat) (indent : Nat) (dest : Dest) (text : String)
  deriving DecidableEq, Repr

/-- The collaborators of the driver.  Each takes the events so far.

* `inGood`, `outGood`: `good()` of a freshly constructed `std::ifstream` /
  `std::ofstream` on a path.
* `outputTokens`: `Scanner(&in).outputTokens(out)`: the text emitted, and the
  error object thrown, if any.
* `parserParse`: `Parser(scanner, &root).parse()`: the error code and the
  root pointer left in `root` (`none` is `nullptr`), or an error object.
* `build`: `NameAnalysis::build(ast)`: a `NameAnalysis *` (`none` is
  `nullptr`), or an error object.
* `unparse`: `ast->unparse(out, indent)`: the text emitted, and the error
  object thrown, if any. -/
structure Env where
  inGood : List Event → String → Bool
  outGood : List Event → String → Bool
  outputTokens : List Event → String → String × Option Exn
  parserParse : List Event → String → Except Exn (Int × Option Nat)
  build : List Event → Nat → Except Exn (Option NameAnalysis)
  unparse : List Event → Nat → Nat → String × Option Exn

/-- Result of a driver routine: what it returned or threw, and the events so
far. -/
abbrev Run (α : Type) := Except Exn α × List Event

/-- The text `usageAndDie` sends to `std::cerr`. -/
def usageText : String :=
  "Usage: cshantyc <infile>" ++
  " [-n <nameFile>]: Perform name analysis\n" ++
  " [-u <unparseFile>]: Output canonical program form\n" ++
  " [-p]: Parse the input to check syntax\n" ++
  " [-t <tokensFile>]: Output tokens to <tokensFile>\n"

/-- The function `usageAndDie()`: the usage text on `std::cerr`, then `exit(1)`. -/
def usageAndDie (h : List Event) : Exit × List Event :=
  (Exit.code 1, h ++ [Event.err usageText])

/-- The function `writeTokenStream(inPath, outPath)`; `outPath = none` is `nullptr`. -/
def writeTokenStream (env : Env) (inPath : String) (outPath : Option String)
    (h : List Event) : Run Unit :=
  let good := env.inGood h inPath
  let h1 := h ++ [Event.openIn inPath good]
  if !good then
    (.error (Exn.internal ("Bad input stream" ++ inPath)), h1)
  else
    match outPath with
    | none => (.error (Exn.internal "No tokens output file given"), h1)
    | some out =>
      if out = "--" then
        let r := env.outputTokens h1 inPath
        let h2 := h1 ++ [Event.tokens inPath Dest.stdout r.1]
        match r.2 with
        | some e => (.error e, h2)
        | none => (.ok (), h2)
      else
        let og := env.outGood h1 out
        let h2 := h1 ++ [Event.openOut out og]
        if !og then
          (.error (Exn.internal ("Bad output file " ++ out)), h2)
        else
          let r := env.outputTokens h2 inPath
          let h3 := h2 ++ [Event.tokens inPath (Dest.file out) r.1]
          match r.2 with
          | some e => (.error e, h3)
          | none => (.ok (), h3)

/-- The function `parse(inFile)`: the root of the AST, or `none` (`nullptr`) when
`parser.parse()` returns a non-zero code. -/
def parse (env : Env) (inFile : String) (h : List Event) : Run (Option Nat) :=
  let good := env.inGood h inFile
  let h1 := h ++ [Event.openIn inFile good]
  if !good then
    (.error (Exn.internal ("Bad input stream " ++ inFile)), h1)
  else
    match env.parserParse h1 inFile with
    | .error e => (.error e, h1 ++ [Event.parserRun inFile])
    | .ok (errCode, root) =>
      if errCode ≠ 0 then (.ok none, h1 ++ [Event.parserRun inFile])
      else (.ok root, h1 ++ [Event.parserRun inFile])

/-- The function `outputAST(ast, outPath)`. -/
def outputAST (env : Env) (ast : Nat) (outPath : String) (h : List Event) : Run Unit :=
  if outPath = "--" then
    let r := env.unparse h ast 0
    let h1 := h ++ [Event.unparse ast 0 Dest.stdout r.1]
    match r.2 with
    | some e => (.error e, h1)
    | none => (.ok (), h1)
  else
    let og := env.outGood h outPath
    let h1 := h ++ [Event.openOut outPath og]
    if !og then
      (.error (Exn.internal ("Bad output file " ++ outPath)), h1)
    else
      let r := env.unparse h1 ast 0
      let h2 := h1 ++ [Event.unparse ast 0 (Dest.file outPath) r.1]
      match r.2 with
      | some e => (.error e, h2)
      | none => (.ok (), h2)

/-- The function `doNameAnalysis(inputPath)`: `none` is `nullptr`. -/
def doNameAnalysis (env : Env) (inputPath : String) (h : List Event) :
    Run (Option NameAnalysis) :=
  match parse env inputPath h with
  | (.error e, h1) => (.error e, h1)
  | (.ok none, h1) => (.ok none, h1)
  | (.ok (some ast), h1) => (env.build h1 ast, h1 ++ [Event.build ast])

/-- The function `doUnparsing(inputPath, outPath)`. -/
def doUnparsing (env : Env) (inputPath outPath : String) (h : List Event) : Run Bool :=
  match parse env inputPath h with
  | (.error e, h1) => (.error e, h1)
  | (.ok none, h1) => (.ok false, h1 ++ [Event.err "No AST built\n"])
  | (.ok (some ast), h1) =>
    match outputAST env ast outPath h1 with
    | (.error e, h2) => (.error e, h2)
    | (.ok _, h2) => (.ok true, h2)

/-- The locals of `main` that the argument loop fills in (`none` is `NULL`). -/
structure Opts where
  inFile : Option String := none
  tokensFile : Option String := none
  checkParse : Bool := false
  unparseFile : Option String := none
  namesFile : Option String := none
  useful : Bool := false
  deriving DecidableEq, Repr

/-- Character `s[k]` of a C string: the terminating NUL past the last character. -/
def charAt (s : String) (k : Nat) : Char :=
  s.data.getD k (Char.ofNat 0)

/-- The loop `for (int i = 1; i < argc; i++)` of `main`, from index `i` on.
`argv[i + 1]?` is `argv[i]` after the `i++` of a flag taking an operand; at
`i + 1 = argc` it is the null pointer that ends `argv`.  The result is the
final locals, or the events sent to `std::cerr` just before `usageAndDie`. -/
def scanArgs (argv : List String) (i : Nat) (o : Opts) : Except (List Event) Opts :=
  if hi : i < argv.length then
    let a := argv[i]
    if charAt a 0 = '-' then
      if charAt a 1 = 't' then
        scanArgs argv (i + 2) { o with tokensFile := argv[i + 1]?, useful := true }
      else if charAt a 1 = 'p' then
        scanArgs argv (i + 1) { o with checkParse := true, useful := true }
      else if charAt a 1 = 'u' then
        if i + 1 ≥ argv.length then .error []
        else scanArgs argv (i + 2) { o with unparseFile := argv[i + 1]?, useful := true }
      else if charAt a 1 = 'n' then
        scanArgs argv (i + 2) { o with namesFile := argv[i + 1]?, useful := true }
      else
        .error [Event.err "Unrecognized argument: ", Event.err (a ++ "\n")]
    else
      if o.inFile = none then
        scanArgs argv (i + 1) { o with inFile := some a }
      else
        .error [Event.err "Only 1 input file allowed", Event.err (a ++ "\n")]
  else .ok o
termination_by argv.length - i

/-- Sequencing inside the `try` block: a thrown error object skips the
statements that follow. -/
def Run.andThen {α β : Type} (r : Run α) (k : α → List Event → Run β) : Run β :=
  match r with
  | (.error e, h) => (.error e, h)
  | (.ok a, h) => k a h

/-- The statement `if (tokensFile != nullptr){ writeTokenStream(inFile, tokensFile); }`. -/
def tokensStep (env : Env) (inFile : String) (o : Opts) (h : List Event) : Run Unit :=
  match o.tokensFile with
  | some t => writeTokenStream env inFile (some t) h
  | none => (.ok (), h)

/-- The statement `if (checkParse){ if (!parse(inFile)){ std::cerr << "Parse failed" ... } }`. -/
def parseStep (env : Env) (inFile : String) (o : Opts) (h : List Event) : Run Unit :=
  if o.checkParse then
    match parse env inFile h with
    | (.error e, h1) => (.error e, h1)
    | (.ok none, h1) => (.ok (), h1 ++ [Event.err "Parse failed\n"])
    | (.ok (some _), h1) => (.ok (), h1)
  else (.ok (), h)

/-- The statement `if (unparseFile != nullptr){ doUnparsing(inFile, unparseFile); }`;
the `bool` that `doUnparsing` returns is dropped. -/
def unparseStep (env : Env) (inFile : String) (o : Opts) (h : List Event) : Run Unit :=
  match o.unparseFile with
  | some u =>
    match doUnparsing env inFile u h with
    | (.error e, h1) => (.error e, h1)
    | (.ok _, h1) => (.ok (), h1)
  | none => (.ok (), h)

/-- The statement `if (namesFile){ ... }` followed by the `return 0` that ends
`main`; `.ok n` is `return n`. -/
def namesStep (env : Env) (inFile : String) (o : Opts) (h : List Event) : Run Nat :=
  match o.namesFile with
  | some n =>
    match doNameAnalysis env inFile h with
    | (.error e, h1) => (.error e, h1)
    | (.ok none, h1) => (.ok 1, h1 ++ [Event.err "Name Analysis Failed\n"])
    | (.ok (some na), h1) =>
      match outputAST env na.ast n h1 with
      | (.error e, h2) => (.error e, h2)
      | (.ok _, h2) => (.ok 0, h2)
  | none => (.ok 0, h)

/-- The `try` block of `main` with the locals left by the argument loop: its
four statements in order; `.ok n` is `return n`. -/
def tryBlock (env : Env) (inFile : String) (o : Opts) (h : List Event) : Run Nat :=
  (tokensStep env inFile o h).andThen fun _ h1 =>
  (parseStep env inFile o h1).andThen fun _ h2 =>
  (unparseStep env inFile o h2).andThen fun _ h3 =>
  namesStep env inFile o h3

/-- The handlers after the `try` block. -/
def handlers (r : Run Nat) : Exit × List Event :=
  match r with
  | (.ok n, h) => (Exit.code n, h)
  | (.error (Exn.toDo m), h) => (Exit.code 1, h ++ [Event.err ("ToDoError: " ++ m ++ "\n")])
  | (.error (Exn.internal m), h) =>
    (Exit.code 1, h ++ [Event.err ("InternalError: " ++ m ++ "\n")])

/-- The function `main(argc, argv)` with `argc = argv.length`: the exit status
and the events of the run.  The test `input == nullptr` has no branch here: a
plain `new` does not return null.  The loop starts from the default locals
`{}` (all pointers `NULL`, both booleans `false`). -/
def main (env : Env) (argv : List String) : Exit × List Event :=
  if hc : argv.length ≤ 1 then usageAndDie []
  else
    let a1 := argv[1]
    let good := env.inGood [] a1
    let h0 := [Event.probe a1 good]
    if !good then
      usageAndDie (h0 ++ [Event.err ("Bad path " ++ a1 ++ "\n")])
    else
      match scanArgs argv 1 {} with
      | .error evs => usageAndDie (h0 ++ evs)
      | .ok o =>
        match o.inFile with
        | none => usageAndDie h0
        | some inFile =>
          if !o.useful then
            usageAndDie (h0 ++ [Event.err "Hey, you didn't tell cshantyc to do anything!\n"])
          else
            handlers (tryBlock env inFile o h0)

/-! ## The argument list as the usage text describes it

The definitions of this section do not come from the loop of `main`: they
spell out the vocabulary "flag position", "file operand", "input-file
position" and "action flag", so that statements about argument lists can be
compared with what the loop does. -/

/-- What an argument after `argv[0]` is, reading the list from the left. -/
inductive Role where
  /-- begins with `-` and is not the operand of the flag before it -/
  | flag
  /-- the file operand consumed by a preceding `-t`, `-u` or `-n` -/
  | operand
  /-- does not begin with `-` and is not an operand: an input file -/
  | infile
  deriving DecidableEq, Repr

/-- The argument begins with `-`. -/
def beginsWithDash (a : String) : Bool :=
  a.data.head? = some '-'

/-- The second character of the argument is `c`. -/
def secondIs (a : String) (c : Char) : Bool :=
  a.data[1]? = some c

/-- Flags that take a file operand: `-t`, `-u`, `-n`. -/
def takesOperand (a : String) : Bool :=
  secondIs a 't' || secondIs a 'u' || secondIs a 'n'

/-- Action flags: `-t`, `-p`, `-u`, `-n` (judged on the second character). -/
def isAction (a : String) : Bool :=
  secondIs a 't' || secondIs a 'p' || secondIs a 'u' || secondIs a 'n'

/-- The arguments `args = argv[1..]` with their roles, left to right: a flag
that takes an operand consumes the argument after it, whatever that looks
like. -/
def argRoles : List String → List (String × Role)
  | [] => []
  | a :: rest =>
    if beginsWithDash a then
      if takesOperand a then
        match rest with
        | [] => [(a, Role.flag)]
        | b :: rest1 => (a, Role.flag) :: (b, Role.operand) :: argRoles rest1
      else (a, Role.flag) :: argRoles rest
    else (a, Role.infile) :: argRoles rest

/-- The arguments after `argv[0]`, each with its role. -/
def roled (argv : List String) : List (String × Role) :=
  argRoles argv.tail

/-- The arguments in input-file position, in order. -/
def infiles (argv : List String) : List String :=
  ((roled argv).filter (fun x => x.2 = Role.infile)).map (fun x => x.1)

/-- The first argument in input-file position, if any. -/
def firstInfile (argv : List String) : Option String :=
  (infiles argv).head?

/-- The number of arguments in input-file position among `pre`. -/
def infileCount (pre : List (String × Role)) : Nat :=
  (pre.filter (fun x => x.2 = Role.infile)).length

/-! ## Observations on runs -/

/-- The test `strcmp(outPath, "--") == 0` selects `std::cout`. -/
def destOf (outPath : String) : Dest :=
  if outPath = "--" then Dest.stdout else Dest.file outPath

/-- Events that belong to a phase (token dump, parse, unparse, name
analysis), as opposed to the probe of `argv[1]` and messages on `std::cerr`. -/
def Event.isPhase : Event → Bool
  | Event.err _ => false
  | Event.probe _ _ => false
  | _ => true

/-- The input path a phase event works on. -/
def Event.input? : Event → Option String
  | Event.openIn p _ => some p
  | Event.tokens p _ _ => some p
  | Event.parserRun p => some p
  | _ => none

/-- The event writes to the destination `d`: a file opened for output (which
truncates it), a token dump or an unparse sent there. -/
def Event.writesTo (d : Dest) : Event → Bool
  | Event.openOut p g => g && (Dest.file p = d)
  | Event.tokens _ d1 _ => d1 = d
  | Event.unparse _ _ d1 _ => d1 = d
  | _ => false

/-- The event is a call of `NameAnalysis::build`. -/
def Event.isBuild : Event → Bool
  | Event.build _ => true
  | _ => false

/-- The event is a call of `unparse`. -/
def Event.isUnparse : Event → Bool
  | Event.unparse _ _ _ _ => true
  | _ => false

/-- The run ended in `usageAndDie` before the `try` block. -/
def DiesWithUsage (r : Exit × List Event) : Prop :=
  ∃ h, r = usageAndDie h ∧ ∀ e ∈ h, e.isPhase = false

/-! ## Scope stack of the name-analysis phase -/

/-- Modelled from the spec: the Symbol Table of sections 3 and 4.2, whose code
is not among the sources: per scope, a mapping from declared name
(case-sensitive) to one declaration reference, here a list of name and
declaration handle. -/
structure SymbolTable where
  entries : List (String × Nat)
  deriving DecidableEq, Repr

/-- Modelled from the spec: the operation `resolveLocal(name)` of section 4.2,
whose code is not among the sources: look the name up in this table only. -/
def SymbolTable.resolveLocal (t : SymbolTable) (name : String) : Option Nat :=
  (t.entries.find? (fun x => x.1 = name)).map (fun x => x.2)

/-- Modelled from the spec: the Scope Stack of sections 3 and 4.1, whose code
is not among the sources: an ordered sequence of symbol tables, innermost
last. -/
structure ScopeStack where
  tables : List SymbolTable
  deriving DecidableEq, Repr

/-- Modelled from the spec: the search of `lookup(name)` of section 4.1, whose
code is not among the sources, over the tables listed innermost first: the
first match, or not found. -/
def lookupInnermostFirst : List SymbolTable → String → Option Nat
  | [], _ => none
  | t :: outer, name =>
    match t.resolveLocal name with
    | some d => some d
    | none => lookupInnermostFirst outer name

/-- Modelled from the spec: the operation `lookup(name)` of section 4.1, whose
code is not among the sources: search the tables from innermost to outermost,
returning the first match or not found. -/
def ScopeStack.lookup (s : ScopeStack) (name : String) : Option Nat :=
  lookupInnermostFirst s.tables.reverse name

/-! ## Predicates used in the proofs -/

/-- The argument loop as a recursion on the arguments still to read; equal to
`scanArgs` (see `scanArgs_eq_scanList`) and used only in proofs. -/
def scanList : List String → Opts → Except (List Event) Opts
  | [], o => .ok o
  | a :: rest, o =>
    if charAt a 0 = '-' then
      if charAt a 1 = 't' then
        match rest with
        | [] => .ok { o with tokensFile := none, useful := true }
        | b :: rest1 => scanList rest1 { o with tokensFile := some b, useful := true }
      else if charAt a 1 = 'p' then
        scanList rest { o with checkParse := true, useful := true }
      else if charAt a 1 = 'u' then
        match rest with
        | [] => .error []
        | b :: rest1 => scanList rest1 { o with unparseFile := some b, useful := true }
      else if charAt a 1 = 'n' then
        match rest with
        | [] => .ok { o with namesFile := none, useful := true }
        | b :: rest1 => scanList rest1 { o with namesFile := some b, useful := true }
      else
        .error [Event.err "Unrecognized argument: ", Event.err (a ++ "\n")]
    else
      if o.inFile = none then
        scanList rest { o with inFile := some a }
      else
        .error [Event.err "Only 1 input file allowed", Event.err (a ++ "\n")]

/-- The arguments in input-file position among `argRoles l`. -/
def infilesOf (l : List String) : List String :=
  ((argRoles l).filter (fun x => x.2 = Role.infile)).map (fun x => x.1)

/-- What a completed scan says about the roles of the arguments it read. -/
def ScanOk (l : List String) (o o1 : Opts) : Prop :=
  (∀ x ∈ argRoles l, x.2 = Role.flag → isAction x.1 = true) ∧
  (o.inFile = none → o1.inFile = (infilesOf l).head? ∧ (infilesOf l).length ≤ 1) ∧
  (∀ f, o.inFile = some f → o1.inFile = some f ∧ infilesOf l = []) ∧
  (o1.useful = true →
    o.useful = true ∨ ∃ x ∈ argRoles l, x.2 = Role.flag ∧ isAction x.1 = true) ∧
  ((∀ x ∈ argRoles l, x.2 = Role.flag → secondIs x.1 'n' = false) →
    o1.namesFile = o.namesFile)

/-- The scan reaches the argument after `pre` starting from locals `o`: no
argument of `pre` stops it. -/
def Reaches (o : Opts) (pre : List (String × Role)) : Prop :=
  (∀ x ∈ pre, x.2 = Role.flag → isAction x.1 = true) ∧
  infileCount pre ≤ (if o.inFile = none then 1 else 0)

/-- The run went from events `h` to events `h1` by adding events that all
satisfy `P`. -/
def Emits (P : Event → Prop) (h h1 : List Event) : Prop :=
  ∃ evs, h1 = h ++ evs ∧ ∀ e ∈ evs, P e

/-- Events of `parse(inF)`. -/
def ParseEv (inF : String) (e : Event) : Prop :=
  (∃ g, e = Event.openIn inF g) ∨ e = Event.parserRun inF

/-- Events of `writeTokenStream(inF, t)`. -/
def TokensEv (inF t : String) (e : Event) : Prop :=
  (∃ g, e = Event.openIn inF g) ∨ (∃ g, e = Event.openOut t g) ∨
    ∃ text, e = Event.tokens inF (destOf t) text

/-- Events of `outputAST(ast, out)`. -/
def OutEv (ast : Nat) (out : String) (e : Event) : Prop :=
  (∃ g, e = Event.openOut out g) ∨ ∃ text, e = Event.unparse ast 0 (destOf out) text

/-- The parser returned code zero and the root `ast` on `inF` at some moment. -/
def Parsed (env : Env) (inF : String) (ast : Nat) : Prop :=
  ∃ h, env.parserParse h inF = .ok (0, some ast)

/-- Events of `doUnparsing(inF, u)`. -/
def UnparseEv (env : Env) (inF u : String) (e : Event) : Prop :=
  ParseEv inF e ∨ e = Event.err "No AST built\n" ∨ ∃ ast, Parsed env inF ast ∧ OutEv ast u e

/-- Events of the name-analysis statement with destination `n`. -/
def NamesEv (env : Env) (inF n : String) (e : Event) : Prop :=
  ParseEv inF e ∨ e = Event.err "Name Analysis Failed\n" ∨
    ∃ ast, Parsed env inF ast ∧
      (e = Event.build ast ∨ ∃ na h, env.build h ast = .ok (some na) ∧ OutEv na.ast n e)

/-- How the name-analysis statement can end when a names file was given:
an error object, `return 1` after a null analysis, or `return 0` after `build`
returned an analysis at the events `pre`. -/
def NamesOutcome (env : Env) (r : Run Nat) : Prop :=
  (∃ e, r.1 = .error e) ∨
  (r.1 = .ok 1 ∧ ∃ pre, r.2 = pre ++ [Event.err "Name Analysis Failed\n"]) ∨
  (r.1 = .ok 0 ∧ ∃ pre ast na post,
    r.2 = pre ++ Event.build ast :: post ∧ env.build pre ast = .ok (some na))

/-- Events the `try` block can add, each with the local that asks for it. -/
def Allowed (env : Env) (inF : String) (o : Opts) (e : Event) : Prop :=
  (∃ t, o.tokensFile = some t ∧ TokensEv inF t e) ∨
  (o.checkParse = true ∧ (ParseEv inF e ∨ e = Event.err "Parse failed\n")) ∨
  (∃ u, o.unparseFile = some u ∧ UnparseEv env inF u e) ∨
  (∃ n, o.namesFile = some n ∧ NamesEv env inF n e)

/-! ## Concrete environments -/

/-- An environment in which every file opens, the parser returns the tree 1,
`build` returns an analysis of the tree it is given and nothing throws. -/
def envAllGood : Env where
  inGood := fun _ _ => true
  outGood := fun _ _ => true
  outputTokens := fun _ _ => ("tokens", none)
  parserParse := fun _ _ => .ok (0, some 1)
  build := fun _ a => .ok (some ⟨a⟩)
  unparse := fun _ _ _ => ("program", none)

/-- As `envAllGood`, but the only readable path is `prog.cshanty`. -/
def envOnlyInput : Env where
  inGood := fun _ p => decide (p = "prog.cshanty")
  outGood := fun _ _ => true
  outputTokens := fun _ _ => ("tokens", none)
  parserParse := fun _ _ => .ok (0, some 1)
  build := fun _ a => .ok (some ⟨a⟩)
  unparse := fun _ _ _ => ("program", none)

/-- As `envAllGood`, but the parser returns code 1 and no tree. -/
def envParseFails : Env where
  inGood := fun _ _ => true
  outGood := fun _ _ => true
  outputTokens := fun _ _ => ("tokens", none)
  parserParse := fun _ _ => .ok (1, none)
  build := fun _ a => .ok (some ⟨a⟩)
  unparse := fun _ _ _ => ("program", none)

/-- A scope stack with `x` declared as 10 in the outer table and as 20 in the
inner one. -/
def stackShadow : ScopeStack :=
  ⟨[⟨[("x", 10), ("y", 11)]⟩, ⟨[("x", 20)]⟩]⟩

/-! ## Lemmas -/

theorem drop_succ_cases (argv : List String) (i : Nat) :
    (i + 1 < argv.length ∧ ∃ b, argv[i + 1]? = some b ∧
      argv.drop (i + 1) = b :: argv.drop (i + 2)) ∨
    (argv.length ≤ i + 1 ∧ argv[i + 1]? = none ∧ argv.drop (i + 1) = [] ∧
      argv.drop (i + 2) = []) := by
  by_cases h1 : i + 1 < argv.length
  · left
    exact ⟨h1, argv[i + 1], List.getElem?_eq_getElem h1, List.drop_eq_getElem_cons h1⟩
  · right
    refine ⟨by omega, ?_, ?_, ?_⟩
    · exact List.getElem?_eq_none (by omega)
    · exact List.drop_eq_nil_of_le (by omega)
    · exact List.drop_eq_nil_of_le (by omega)

theorem scanArgs_eq_scanList (argv : List String) (i : Nat) (o : Opts) :
    scanArgs argv i o = scanList (argv.drop i) o := by
  induction i, o using scanArgs.induct argv with
  | case9 i o hi =>
    rw [scanArgs, dif_neg hi, List.drop_eq_nil_of_le (by omega), scanList]
  | case1 i o hi a h0 ht ih =>
    rw [scanArgs, dif_pos hi, List.drop_eq_getElem_cons hi, scanList.eq_def]
    simp only [a] at h0 ht
    simp only [if_pos h0, if_pos ht]
    rw [ih]
    rcases drop_succ_cases argv i with ⟨_, b, e1, e2⟩ | ⟨_, e1, e2, e3⟩
    · rw [e1, e2]
    · rw [e1, e2, e3, scanList]
  | case2 i o hi a h0 ht hp ih =>
    rw [scanArgs, dif_pos hi, List.drop_eq_getElem_cons hi, scanList.eq_def]
    simp only [a] at h0 ht hp
    simp only [if_pos h0, if_neg ht, if_pos hp]
    rw [ih]
  | case3 i o hi a h0 ht hp hu hlast =>
    rw [scanArgs, dif_pos hi, List.drop_eq_getElem_cons hi, scanList.eq_def]
    simp only [a] at h0 ht hp hu
    simp only [if_pos h0, if_neg ht, if_neg hp, if_pos hu, if_pos hlast]
    rcases drop_succ_cases argv i with ⟨h1, _⟩ | ⟨_, e1, e2, e3⟩
    · omega
    · rw [e2]
  | case4 i o hi a h0 ht hp hu hlast ih =>
    rw [scanArgs, dif_pos hi, List.drop_eq_getElem_cons hi, scanList.eq_def]
    simp only [a] at h0 ht hp hu
    simp only [if_pos h0, if_neg ht, if_neg hp, if_pos hu, if_neg hlast]
    rw [ih]
    rcases drop_succ_cases argv i with ⟨_, b, e1, e2⟩ | ⟨h1, _, _, _⟩
    · rw [e1, e2]
    · omega
  | case5 i o hi a h0 ht hp hu hn ih =>
    rw [scanArgs, dif_pos hi, List.drop_eq_getElem_cons hi, scanList.eq_def]
    simp only [a] at h0 ht hp hu hn
    simp only [if_pos h0, if_neg ht, if_neg hp, if_neg hu, if_pos hn]
    rw [ih]
    rcases drop_succ_cases argv i with ⟨_, b, e1, e2⟩ | ⟨_, e1, e2, e3⟩
    · rw [e1, e2]
    · rw [e1, e2, e3, scanList]
  | case6 i o hi a h0 ht hp hu hn =>
    rw [scanArgs, dif_pos hi, List.drop_eq_getElem_cons hi, scanList.eq_def]
    simp only [a] at h0 ht hp hu hn
    simp only [if_pos h0, if_neg ht, if_neg hp, if_neg hu, if_neg hn]
  | case7 i o hi a h0 hin ih =>
    rw [scanArgs, dif_pos hi, List.drop_eq_getElem_cons hi, scanList.eq_def]
    simp only [a] at h0
    simp only [if_neg h0, if_pos hin]
    rw [ih]
  | case8 i o hi a h0 hin =>
    rw [scanArgs, dif_pos hi, List.drop_eq_getElem_cons hi, scanList.eq_def]
    simp only [a] at h0
    simp only [if_neg h0, if_neg hin]

theorem beginsWithDash_iff (a : String) : beginsWithDash a = true ↔ charAt a 0 = '-' := by
  unfold beginsWithDash charAt
  cases a.data with
  | nil => simp
  | cons c cs => simp

theorem secondIs_iff (a : String) (c : Char) (hc : c ≠ Char.ofNat 0) :
    secondIs a c = true ↔ charAt a 1 = c := by
  unfold secondIs charAt
  cases h : a.data[1]? with
  | none =>
    simp [List.getD_eq_getElem?_getD, h]
    exact fun e => hc e.symm
  | some d => simp [List.getD_eq_getElem?_getD, h]

theorem isAction_iff (a : String) :
    isAction a = true ↔
      charAt a 1 = 't' ∨ charAt a 1 = 'p' ∨ charAt a 1 = 'u' ∨ charAt a 1 = 'n' := by
  unfold isAction
  simp only [Bool.or_eq_true, secondIs_iff a 't' (by decide), secondIs_iff a 'p' (by decide),
    secondIs_iff a 'u' (by decide), secondIs_iff a 'n' (by decide)]
  tauto

theorem takesOperand_iff (a : String) :
    takesOperand a = true ↔ charAt a 1 = 't' ∨ charAt a 1 = 'u' ∨ charAt a 1 = 'n' := by
  unfold takesOperand
  simp only [Bool.or_eq_true, secondIs_iff a 't' (by decide),
    secondIs_iff a 'u' (by decide), secondIs_iff a 'n' (by decide)]
  tauto

theorem argRoles_flag_op (a b : String) (rest : List String) (h0 : charAt a 0 = '-')
    (h1 : charAt a 1 = 't' ∨ charAt a 1 = 'u' ∨ charAt a 1 = 'n') :
    argRoles (a :: b :: rest) = (a, Role.flag) :: (b, Role.operand) :: argRoles rest := by
  rw [argRoles, if_pos ((beginsWithDash_iff a).2 h0), if_pos ((takesOperand_iff a).2 h1)]

theorem argRoles_flag_last (a : String) (h0 : charAt a 0 = '-') :
    argRoles [a] = [(a, Role.flag)] := by
  rw [argRoles, if_pos ((beginsWithDash_iff a).2 h0)]
  split <;> rfl

theorem argRoles_flag_plain (a : String) (rest : List String) (h0 : charAt a 0 = '-')
    (h1 : ¬ (charAt a 1 = 't' ∨ charAt a 1 = 'u' ∨ charAt a 1 = 'n')) :
    argRoles (a :: rest) = (a, Role.flag) :: argRoles rest := by
  rw [argRoles.eq_def]
  simp only [if_pos ((beginsWithDash_iff a).2 h0)]
  rw [if_neg (fun h => h1 ((takesOperand_iff a).1 h))]

theorem argRoles_infile (a : String) (rest : List String) (h0 : ¬ charAt a 0 = '-') :
    argRoles (a :: rest) = (a, Role.infile) :: argRoles rest := by
  rw [argRoles.eq_def]
  simp only [if_neg (fun h => h0 ((beginsWithDash_iff a).1 h))]

theorem ScanOk_nil (o : Opts) : ScanOk [] o o := by
  simp [ScanOk, argRoles, infilesOf]

theorem ScanOk_flag (l rest : List String) (a : String) (extra : List (String × Role))
    (hr : argRoles l = (a, Role.flag) :: (extra ++ argRoles rest))
    (hextra : ∀ x ∈ extra, x.2 = Role.operand) (ha : isAction a = true)
    (o o2 o1 : Opts) (ih : ScanOk rest o2 o1) (hin : o2.inFile = o.inFile)
    (hnm : secondIs a 'n' = false → o2.namesFile = o.namesFile) : ScanOk l o o1 := by
  obtain ⟨i1, i2, i3, i4, i5⟩ := ih
  have hfil : infilesOf l = infilesOf rest := by
    unfold infilesOf
    rw [hr]
    have : extra.filter (fun x => x.2 = Role.infile) = [] := by
      rw [List.filter_eq_nil_iff]
      intro x hx
      simp [hextra x hx]
    simp [List.filter_append, this]
  refine ⟨?_, ?_, ?_, ?_, ?_⟩
  · intro x hx hf
    rw [hr] at hx
    simp only [List.mem_cons, List.mem_append] at hx
    rcases hx with rfl | hx | hx
    · exact ha
    · rw [hextra x hx] at hf
      simp at hf
    · exact i1 x hx hf
  · intro h
    rw [hfil]
    exact i2 (hin.trans h)
  · intro f hf
    rw [hfil]
    exact i3 f (hin.trans hf)
  · intro _
    right
    exact ⟨(a, Role.flag), by simp [hr], rfl, ha⟩
  · intro hall
    rw [hr] at hall
    have h1 : o1.namesFile = o2.namesFile :=
      i5 (fun x hx hf => hall x (by simp [hx]) hf)
    rw [h1]
    exact hnm (hall (a, Role.flag) (by simp) rfl)

theorem ScanOk_infile (a : String) (rest : List String) (h0 : ¬ charAt a 0 = '-')
    (o o2 o1 : Opts) (ih : ScanOk rest o2 o1) (hin : o.inFile = none)
    (hin2 : o2.inFile = some a) (hu : o2.useful = o.useful)
    (hnm : o2.namesFile = o.namesFile) : ScanOk (a :: rest) o o1 := by
  obtain ⟨i1, i2, i3, i4, i5⟩ := ih
  have hr := argRoles_infile a rest h0
  have hfil : infilesOf (a :: rest) = a :: infilesOf rest := by
    simp [infilesOf, hr]
  obtain ⟨j1, j2⟩ := i3 a hin2
  refine ⟨?_, ?_, ?_, ?_, ?_⟩
  · intro x hx hf
    rw [hr] at hx
    simp only [List.mem_cons] at hx
    rcases hx with rfl | hx
    · simp at hf
    · exact i1 x hx hf
  · intro _
    rw [hfil, j2]
    simp [j1]
  · intro f hf
    rw [hin] at hf
    simp at hf
  · intro h
    rcases i4 h with h | ⟨x, hx, hf, hact⟩
    · left
      rw [← hu]
      exact h
    · right
      exact ⟨x, by simp [hr, hx], hf, hact⟩
  · intro hall
    rw [hr] at hall
    rw [i5 (fun x hx hf => hall x (by simp [hx]) hf), hnm]

theorem neq_of_eq_char {c d e : Char} (h : c = d) (hde : d ≠ e) : ¬ c = e := by
  rw [h]; exact hde

theorem secondIs_n_false {a : String} {d : Char} (h : charAt a 1 = d) (hd : d ≠ 'n') :
    secondIs a 'n' = false := by
  rw [← Bool.not_eq_true, secondIs_iff a 'n' (by decide)]
  exact neq_of_eq_char h hd

theorem scanList_ok_spec (l : List String) (o : Opts) :
    ∀ o1, scanList l o = .ok o1 → ScanOk l o o1 := by
  induction l, o using scanList.induct with
  | case1 o =>
    intro o1 h
    simp only [scanList, Except.ok.injEq] at h
    subst h
    exact ScanOk_nil o
  | case2 a o h0 ht =>
    intro o1 h
    simp only [scanList, if_pos h0, if_pos ht, Except.ok.injEq] at h
    subst h
    exact ScanOk_flag [a] [] a [] (by rw [argRoles_flag_last a h0]; rfl) (by simp)
      ((isAction_iff a).2 (Or.inl ht)) o _ _ (ScanOk_nil _) rfl (fun _ => rfl)
  | case3 a o h0 ht b rest1 ih =>
    intro o1 h
    simp only [scanList, if_pos h0, if_pos ht] at h
    exact ScanOk_flag _ rest1 a [(b, Role.operand)]
      (by simp [argRoles_flag_op a b rest1 h0 (Or.inl ht)]) (by simp)
      ((isAction_iff a).2 (Or.inl ht)) o _ _ (ih o1 h) rfl (fun _ => rfl)
  | case4 a rest o h0 ht hp ih =>
    intro o1 h
    rw [scanList.eq_def] at h
    simp only [if_pos h0, if_neg ht, if_pos hp] at h
    have hno : ¬ (charAt a 1 = 't' ∨ charAt a 1 = 'u' ∨ charAt a 1 = 'n') := by
      rw [hp]; decide
    exact ScanOk_flag _ rest a []
      (by simp [argRoles_flag_plain a rest h0 hno]) (by simp)
      ((isAction_iff a).2 (Or.inr (Or.inl hp))) o _ _ (ih o1 h) rfl (fun _ => rfl)
  | case5 a o h0 ht hp hu =>
    intro o1 h
    simp [scanList, if_pos h0, if_neg ht, if_neg hp, if_pos hu] at h
  | case6 a o h0 ht hp hu b rest1 ih =>
    intro o1 h
    simp only [scanList, if_pos h0, if_neg ht, if_neg hp, if_pos hu] at h
    exact ScanOk_flag _ rest1 a [(b, Role.operand)]
      (by simp [argRoles_flag_op a b rest1 h0 (Or.inr (Or.inl hu))]) (by simp)
      ((isAction_iff a).2 (Or.inr (Or.inr (Or.inl hu)))) o _ _ (ih o1 h) rfl (fun _ => rfl)
  | case7 a o h0 ht hp hu hn =>
    intro o1 h
    simp only [scanList, if_pos h0, if_neg ht, if_neg hp, if_neg hu, if_pos hn,
      Except.ok.injEq] at h
    subst h
    have hs : secondIs a 'n' = true := (secondIs_iff a 'n' (by decide)).2 hn
    exact ScanOk_flag [a] [] a [] (by rw [argRoles_flag_last a h0]; rfl) (by simp)
      ((isAction_iff a).2 (Or.inr (Or.inr (Or.inr hn)))) o _ _ (ScanOk_nil _) rfl
      (fun hc => by rw [hs] at hc; cases hc)
  | case8 a o h0 ht hp hu hn b rest1 ih =>
    intro o1 h
    simp only [scanList, if_pos h0, if_neg ht, if_neg hp, if_neg hu, if_pos hn] at h
    have hs : secondIs a 'n' = true := (secondIs_iff a 'n' (by decide)).2 hn
    exact ScanOk_flag _ rest1 a [(b, Role.operand)]
      (by simp [argRoles_flag_op a b rest1 h0 (Or.inr (Or.inr hn))]) (by simp)
      ((isAction_iff a).2 (Or.inr (Or.inr (Or.inr hn)))) o _ _ (ih o1 h) rfl
      (fun hc => by rw [hs] at hc; cases hc)
  | case9 a rest o h0 ht hp hu hn =>
    intro o1 h
    rw [scanList.eq_def] at h
    simp [if_pos h0, if_neg ht, if_neg hp, if_neg hu, if_neg hn] at h
  | case10 a rest o h0 hin ih =>
    intro o1 h
    rw [scanList.eq_def] at h
    simp only [if_neg h0, if_pos hin] at h
    exact ScanOk_infile a rest h0 o _ o1 (ih o1 h) hin rfl rfl rfl
  | case11 a rest o h0 hin =>
    intro o1 h
    rw [scanList.eq_def] at h
    simp [if_neg h0, if_neg hin] at h

theorem scanList_error_events (l : List String) (o : Opts) :
    ∀ evs, scanList l o = .error evs → ∀ e ∈ evs, e.isPhase = false := by
  induction l, o using scanList.induct with
  | case1 o => intro evs h; simp [scanList] at h
  | case2 a o h0 ht => intro evs h; simp [scanList, if_pos h0, if_pos ht] at h
  | case3 a o h0 ht b rest1 ih =>
    intro evs h
    simp only [scanList, if_pos h0, if_pos ht] at h
    exact ih evs h
  | case4 a rest o h0 ht hp ih =>
    intro evs h
    rw [scanList.eq_def] at h
    simp only [if_pos h0, if_neg ht, if_pos hp] at h
    exact ih evs h
  | case5 a o h0 ht hp hu =>
    intro evs h
    simp only [scanList, if_pos h0, if_neg ht, if_neg hp, if_pos hu, Except.error.injEq] at h
    subst h
    simp
  | case6 a o h0 ht hp hu b rest1 ih =>
    intro evs h
    simp only [scanList, if_pos h0, if_neg ht, if_neg hp, if_pos hu] at h
    exact ih evs h
  | case7 a o h0 ht hp hu hn =>
    intro evs h
    simp [scanList, if_pos h0, if_neg ht, if_neg hp, if_neg hu, if_pos hn] at h
  | case8 a o h0 ht hp hu hn b rest1 ih =>
    intro evs h
    simp only [scanList, if_pos h0, if_neg ht, if_neg hp, if_neg hu, if_pos hn] at h
    exact ih evs h
  | case9 a rest o h0 ht hp hu hn =>
    intro evs h
    rw [scanList.eq_def] at h
    simp only [if_pos h0, if_neg ht, if_neg hp, if_neg hu, if_neg hn, Except.error.injEq] at h
    subst h
    simp [Event.isPhase]
  | case10 a rest o h0 hin ih =>
    intro evs h
    rw [scanList.eq_def] at h
    simp only [if_neg h0, if_pos hin] at h
    exact ih evs h
  | case11 a rest o h0 hin =>
    intro evs h
    rw [scanList.eq_def] at h
    simp only [if_neg h0, if_neg hin, Except.error.injEq] at h
    subst h
    simp [Event.isPhase]

theorem meets_step (x : String × Role) (rolesRest pre post : List (String × Role))
    (a : String) (hr : x :: rolesRest = pre ++ (a, Role.flag) :: post)
    (hx : x ≠ (a, Role.flag)) :
    ∃ pre1, pre = x :: pre1 ∧ rolesRest = pre1 ++ (a, Role.flag) :: post := by
  cases pre with
  | nil =>
    simp only [List.nil_append, List.cons.injEq] at hr
    exact absurd hr.1 hx
  | cons y pre1 =>
    simp only [List.cons_append, List.cons.injEq] at hr
    exact ⟨pre1, by rw [hr.1], hr.2⟩

theorem scanList_meets (l : List String) (o : Opts) :
    ∀ pre a post, argRoles l = pre ++ (a, Role.flag) :: post → isAction a = false →
      Reaches o pre →
      scanList l o = .error [Event.err "Unrecognized argument: ", Event.err (a ++ "\n")] := by
  induction l, o using scanList.induct with
  | case1 o =>
    intro pre a post hr
    simp [argRoles] at hr
  | case2 a0 o h0 ht =>
    intro pre a post hr hbad hreach
    rw [argRoles_flag_last a0 h0] at hr
    have hact : isAction a0 = true := (isAction_iff a0).2 (Or.inl ht)
    obtain ⟨pre1, rfl, hr1⟩ := meets_step _ _ _ _ _ hr
      (by intro e; simp only [Prod.mk.injEq] at e; rw [e.1, hbad] at hact; cases hact)
    simp at hr1
  | case3 a0 o h0 ht b rest1 ih =>
    intro pre a post hr hbad hreach
    rw [argRoles_flag_op a0 b rest1 h0 (Or.inl ht)] at hr
    have hact : isAction a0 = true := (isAction_iff a0).2 (Or.inl ht)
    obtain ⟨pre1, rfl, hr1⟩ := meets_step _ _ _ _ _ hr
      (by intro e; simp only [Prod.mk.injEq] at e; rw [e.1, hbad] at hact; cases hact)
    obtain ⟨pre2, rfl, hr2⟩ := meets_step _ _ _ _ _ hr1 (by simp)
    simp only [scanList, if_pos h0, if_pos ht]
    refine ih pre2 a post hr2 hbad ⟨fun x hx hf => hreach.1 x (by simp [hx]) hf, ?_⟩
    have := hreach.2
    simpa [infileCount] using this
  | case4 a0 rest o h0 ht hp ih =>
    intro pre a post hr hbad hreach
    have hno : ¬ (charAt a0 1 = 't' ∨ charAt a0 1 = 'u' ∨ charAt a0 1 = 'n') := by
      rw [hp]; decide
    rw [argRoles_flag_plain a0 rest h0 hno] at hr
    have hact : isAction a0 = true := (isAction_iff a0).2 (Or.inr (Or.inl hp))
    obtain ⟨pre1, rfl, hr1⟩ := meets_step _ _ _ _ _ hr
      (by intro e; simp only [Prod.mk.injEq] at e; rw [e.1, hbad] at hact; cases hact)
    rw [scanList.eq_def]
    simp only [if_pos h0, if_neg ht, if_pos hp]
    refine ih pre1 a post hr1 hbad ⟨fun x hx hf => hreach.1 x (by simp [hx]) hf, ?_⟩
    have := hreach.2
    simpa [infileCount] using this
  | case5 a0 o h0 ht hp hu =>
    intro pre a post hr hbad hreach
    rw [argRoles_flag_last a0 h0] at hr
    have hact : isAction a0 = true := (isAction_iff a0).2 (Or.inr (Or.inr (Or.inl hu)))
    obtain ⟨pre1, rfl, hr1⟩ := meets_step _ _ _ _ _ hr
      (by intro e; simp only [Prod.mk.injEq] at e; rw [e.1, hbad] at hact; cases hact)
    simp at hr1
  | case6 a0 o h0 ht hp hu b rest1 ih =>
    intro pre a post hr hbad hreach
    rw [argRoles_flag_op a0 b rest1 h0 (Or.inr (Or.inl hu))] at hr
    have hact : isAction a0 = true := (isAction_iff a0).2 (Or.inr (Or.inr (Or.inl hu)))
    obtain ⟨pre1, rfl, hr1⟩ := meets_step _ _ _ _ _ hr
      (by intro e; simp only [Prod.mk.injEq] at e; rw [e.1, hbad] at hact; cases hact)
    obtain ⟨pre2, rfl, hr2⟩ := meets_step _ _ _ _ _ hr1 (by simp)
    simp only [scanList, if_pos h0, if_neg ht, if_neg hp, if_pos hu]
    refine ih pre2 a post hr2 hbad ⟨fun x hx hf => hreach.1 x (by simp [hx]) hf, ?_⟩
    have := hreach.2
    simpa [infileCount] using this
  | case7 a0 o h0 ht hp hu hn =>
    intro pre a post hr hbad hreach
    rw [argRoles_flag_last a0 h0] at hr
    have hact : isAction a0 = true := (isAction_iff a0).2 (Or.inr (Or.inr (Or.inr hn)))
    obtain ⟨pre1, rfl, hr1⟩ := meets_step _ _ _ _ _ hr
      (by intro e; simp only [Prod.mk.injEq] at e; rw [e.1, hbad] at hact; cases hact)
    simp at hr1
  | case8 a0 o h0 ht hp hu hn b rest1 ih =>
    intro pre a post hr hbad hreach
    rw [argRoles_flag_op a0 b rest1 h0 (Or.inr (Or.inr hn))] at hr
    have hact : isAction a0 = true := (isAction_iff a0).2 (Or.inr (Or.inr (Or.inr hn)))
    obtain ⟨pre1, rfl, hr1⟩ := meets_step _ _ _ _ _ hr
      (by intro e; simp only [Prod.mk.injEq] at e; rw [e.1, hbad] at hact; cases hact)
    obtain ⟨pre2, rfl, hr2⟩ := meets_step _ _ _ _ _ hr1 (by simp)
    simp only [scanList, if_pos h0, if_neg ht, if_neg hp, if_neg hu, if_pos hn]
    refine ih pre2 a post hr2 hbad ⟨fun x hx hf => hreach.1 x (by simp [hx]) hf, ?_⟩
    have := hreach.2
    simpa [infileCount] using this
  | case9 a0 rest o h0 ht hp hu hn =>
    intro pre a post hr hbad hreach
    have hno : ¬ (charAt a0 1 = 't' ∨ charAt a0 1 = 'u' ∨ charAt a0 1 = 'n') := by
      rintro (h | h | h)
      · exact ht h
      · exact hu h
      · exact hn h
    have hnact : ¬ isAction a0 = true := by
      rw [isAction_iff]
      rintro (h | h | h | h)
      · exact ht h
      · exact hp h
      · exact hu h
      · exact hn h
    rw [argRoles_flag_plain a0 rest h0 hno] at hr
    rw [scanList.eq_def]
    simp only [if_pos h0, if_neg ht, if_neg hp, if_neg hu, if_neg hn]
    cases pre with
    | nil =>
      simp only [List.nil_append, List.cons.injEq, Prod.mk.injEq] at hr
      rw [hr.1.1]
    | cons y pre1 =>
      simp only [List.cons_append, List.cons.injEq] at hr
      exact absurd (hreach.1 y (by simp) (by rw [← hr.1])) (by rw [← hr.1]; exact hnact)
  | case10 a0 rest o h0 hin ih =>
    intro pre a post hr hbad hreach
    rw [argRoles_infile a0 rest h0] at hr
    obtain ⟨pre1, rfl, hr1⟩ := meets_step _ _ _ _ _ hr (by simp)
    rw [scanList.eq_def]
    simp only [if_neg h0, if_pos hin]
    refine ih pre1 a post hr1 hbad ⟨fun x hx hf => hreach.1 x (by simp [hx]) hf, ?_⟩
    have := hreach.2
    simp only [hin, if_true, infileCount, List.filter_cons, decide_True] at this
    simpa [infileCount] using this
  | case11 a0 rest o h0 hin =>
    intro pre a post hr hbad hreach
    rw [argRoles_infile a0 rest h0] at hr
    obtain ⟨pre1, rfl, hr1⟩ := meets_step _ _ _ _ _ hr (by simp)
    have := hreach.2
    simp [hin, infileCount] at this

theorem emits_append (P : Event → Prop) (h evs : List Event) :
    Emits P h (h ++ evs) ↔ ∀ e ∈ evs, P e := by
  constructor
  · rintro ⟨evs1, h1, h2⟩
    rw [List.append_cancel_left h1]
    exact h2
  · intro h2
    exact ⟨evs, rfl, h2⟩

theorem emits_refl (P : Event → Prop) (h : List Event) : Emits P h h :=
  ⟨[], by simp, by simp⟩

theorem Emits.trans {P : Event → Prop} {h h1 h2 : List Event}
    (a : Emits P h h1) (b : Emits P h1 h2) : Emits P h h2 := by
  obtain ⟨e1, rfl, p1⟩ := a
  obtain ⟨e2, rfl, p2⟩ := b
  refine ⟨e1 ++ e2, by simp, ?_⟩
  intro e he
  rcases List.mem_append.1 he with he | he
  · exact p1 e he
  · exact p2 e he

theorem Emits.mono {P Q : Event → Prop} {h h1 : List Event}
    (a : Emits P h h1) (pq : ∀ e, P e → Q e) : Emits Q h h1 := by
  obtain ⟨e1, rfl, p1⟩ := a
  exact ⟨e1, rfl, fun e he => pq e (p1 e he)⟩

theorem Emits.snoc {P : Event → Prop} {h h1 : List Event}
    (a : Emits P h h1) (e : Event) (pe : P e) : Emits P h (h1 ++ [e]) :=
  a.trans ((emits_append P h1 [e]).2 (by simpa using pe))

theorem parse_emits (env : Env) (inF : String) (h : List Event) :
    Emits (ParseEv inF) h (parse env inF h).2 := by
  unfold parse
  simp only []
  split
  · simp [emits_append, ParseEv]
  · split <;> try split
    all_goals simp [emits_append, ParseEv]

theorem parse_some (env : Env) (inF : String) (h : List Event) (ast : Nat)
    (hp : (parse env inF h).1 = .ok (some ast)) : Parsed env inF ast := by
  unfold parse at hp
  simp only [] at hp
  split at hp
  · simp at hp
  · split at hp
    · simp at hp
    · rename_i code root heq
      split at hp
      · simp at hp
      · rename_i hc
        simp only [ne_eq, not_not] at hc
        simp only [Except.ok.injEq] at hp
        subst hc hp
        exact ⟨_, heq⟩

theorem writeTokenStream_emits (env : Env) (inF t : String) (h : List Event) :
    Emits (TokensEv inF t) h (writeTokenStream env inF (some t) h).2 := by
  unfold writeTokenStream
  simp only []
  split
  · simp [emits_append, TokensEv]
  · split
    · rename_i ht
      split <;> simp [emits_append, TokensEv, destOf, ht]
    · rename_i ht
      split
      · simp [emits_append, TokensEv]
      · split <;> simp [emits_append, TokensEv, destOf, ht]

theorem outputAST_emits (env : Env) (ast : Nat) (out : String) (h : List Event) :
    Emits (OutEv ast out) h (outputAST env ast out h).2 := by
  unfold outputAST
  simp only []
  split
  · rename_i ht
    split <;> simp [emits_append, OutEv, destOf, ht]
  · rename_i ht
    split
    · simp [emits_append, OutEv]
    · split <;> simp [emits_append, OutEv, destOf, ht]

theorem doUnparsing_emits (env : Env) (inF u : String) (h : List Event) :
    Emits (UnparseEv env inF u) h (doUnparsing env inF u h).2 := by
  have hp := parse_emits env inF h
  have hs := parse_some env inF h
  unfold doUnparsing
  rcases hpar : parse env inF h with ⟨r, h1⟩
  rw [hpar] at hp hs
  have hp1 : Emits (UnparseEv env inF u) h h1 := hp.mono (fun e he => Or.inl he)
  rcases r with e | (_ | ast)
  · exact hp1
  · exact hp1.snoc _ (Or.inr (Or.inl rfl))
  · have ho := outputAST_emits env ast u h1
    have hpd : Parsed env inF ast := hs ast rfl
    simp only []
    rcases hout : outputAST env ast u h1 with ⟨r2, h2⟩
    rw [hout] at ho
    have : Emits (UnparseEv env inF u) h h2 :=
      hp1.trans (ho.mono (fun e he => Or.inr (Or.inr ⟨ast, hpd, he⟩)))
    cases r2 <;> exact this

theorem doNameAnalysis_spec (env : Env) (inF : String) (h : List Event) :
    ((∃ e, (doNameAnalysis env inF h).1 = .error e) ∧
        Emits (fun e => ParseEv inF e ∨ ∃ ast, Parsed env inF ast ∧ e = Event.build ast) h
          (doNameAnalysis env inF h).2) ∨
    ((doNameAnalysis env inF h).1 = .ok none ∧
        Emits (fun e => ParseEv inF e ∨ ∃ ast, Parsed env inF ast ∧ e = Event.build ast) h
          (doNameAnalysis env inF h).2) ∨
    (∃ na ast h1, (doNameAnalysis env inF h) = (.ok (some na), h1 ++ [Event.build ast]) ∧
        Emits (ParseEv inF) h h1 ∧ Parsed env inF ast ∧ env.build h1 ast = .ok (some na)) := by
  have hp := parse_emits env inF h
  have hs := parse_some env inF h
  unfold doNameAnalysis
  rcases hpar : parse env inF h with ⟨r, h1⟩
  rw [hpar] at hp hs
  rcases r with e | (_ | ast)
  · exact Or.inl ⟨⟨e, rfl⟩, hp.mono (fun e he => Or.inl he)⟩
  · exact Or.inr (Or.inl ⟨rfl, hp.mono (fun e he => Or.inl he)⟩)
  · have hpd : Parsed env inF ast := hs ast rfl
    simp only []
    have hem : Emits (fun e => ParseEv inF e ∨ ∃ ast, Parsed env inF ast ∧ e = Event.build ast)
        h (h1 ++ [Event.build ast]) :=
      (hp.mono (fun e he => Or.inl he)).snoc _ (Or.inr ⟨ast, hpd, rfl⟩)
    rcases hb : env.build h1 ast with e | (_ | na)
    · exact Or.inl ⟨⟨e, rfl⟩, hem⟩
    · exact Or.inr (Or.inl ⟨rfl, hem⟩)
    · exact Or.inr (Or.inr ⟨na, ast, h1, rfl, hp, hpd, hb⟩)

theorem namesStep_spec (env : Env) (inF n : String) (o : Opts) (h : List Event)
    (hn : o.namesFile = some n) :
    Emits (NamesEv env inF n) h (namesStep env inF o h).2 ∧
      NamesOutcome env (namesStep env inF o h) := by
  unfold namesStep
  rw [hn]
  simp only []
  rcases doNameAnalysis_spec env inF h with ⟨⟨e, he⟩, hem⟩ | ⟨he, hem⟩ | ⟨na, ast, h1, he, hem, hpd, hb⟩
  · rcases hd : doNameAnalysis env inF h with ⟨r, h1⟩
    rw [hd] at he hem
    simp only at he
    subst he
    refine ⟨hem.mono ?_, Or.inl ⟨e, rfl⟩⟩
    rintro e (he | ⟨ast, hpd, rfl⟩)
    · exact Or.inl he
    · exact Or.inr (Or.inr ⟨ast, hpd, Or.inl rfl⟩)
  · rcases hd : doNameAnalysis env inF h with ⟨r, h1⟩
    rw [hd] at he hem
    simp only at he
    subst he
    refine ⟨(hem.mono ?_).snoc _ (Or.inr (Or.inl rfl)), Or.inr (Or.inl ⟨rfl, h1, rfl⟩)⟩
    rintro e (he | ⟨ast, hpd, rfl⟩)
    · exact Or.inl he
    · exact Or.inr (Or.inr ⟨ast, hpd, Or.inl rfl⟩)
  · rw [he]
    simp only []
    have hem1 : Emits (NamesEv env inF n) h (h1 ++ [Event.build ast]) :=
      (hem.mono (fun e he => Or.inl he)).snoc _ (Or.inr (Or.inr ⟨ast, hpd, Or.inl rfl⟩))
    have ho := outputAST_emits env na.ast n (h1 ++ [Event.build ast])
    rcases hout : outputAST env na.ast n (h1 ++ [Event.build ast]) with ⟨r2, h2⟩
    rw [hout] at ho
    have hem2 : Emits (NamesEv env inF n) h h2 :=
      hem1.trans (ho.mono (fun e he => Or.inr (Or.inr ⟨ast, hpd, Or.inr ⟨na, h1, hb, he⟩⟩)))
    obtain ⟨post, hpost, _⟩ := ho
    cases r2 with
    | error e => exact ⟨hem2, Or.inl ⟨e, rfl⟩⟩
    | ok u =>
      refine ⟨hem2, Or.inr (Or.inr ⟨rfl, h1, ast, na, post, ?_, hb⟩)⟩
      simp only [] at hpost
      simp [hpost]

theorem andThen_emits {α β : Type} {P : Event → Prop} (r : Run α)
    (k : α → List Event → Run β) (h : List Event) (hr : Emits P h r.2)
    (hk : ∀ a h1, Emits P h1 (k a h1).2) : Emits P h (r.andThen k).2 := by
  rcases r with ⟨e | a, h1⟩
  · exact hr
  · exact hr.trans (hk a h1)

theorem tokensStep_emits (env : Env) (inF : String) (o : Opts) (h : List Event) :
    Emits (Allowed env inF o) h (tokensStep env inF o h).2 := by
  unfold tokensStep
  cases ht : o.tokensFile with
  | none => exact emits_refl _ _
  | some t =>
    exact (writeTokenStream_emits env inF t h).mono (fun e he => Or.inl ⟨t, ht, he⟩)

theorem parseStep_emits (env : Env) (inF : String) (o : Opts) (h : List Event) :
    Emits (Allowed env inF o) h (parseStep env inF o h).2 := by
  unfold parseStep
  cases hc : o.checkParse with
  | false => exact emits_refl _ _
  | true =>
    have hp := (parse_emits env inF h).mono
      (fun e he => (Or.inr (Or.inl ⟨hc, Or.inl he⟩) : Allowed env inF o e))
    simp only [if_true]
    rcases hpar : parse env inF h with ⟨r, h1⟩
    rw [hpar] at hp
    rcases r with e | (_ | ast)
    · exact hp
    · exact hp.snoc _ (Or.inr (Or.inl ⟨hc, Or.inr rfl⟩))
    · exact hp

theorem unparseStep_emits (env : Env) (inF : String) (o : Opts) (h : List Event) :
    Emits (Allowed env inF o) h (unparseStep env inF o h).2 := by
  unfold unparseStep
  cases hu : o.unparseFile with
  | none => exact emits_refl _ _
  | some u =>
    have hp := (doUnparsing_emits env inF u h).mono
      (fun e he => (Or.inr (Or.inr (Or.inl ⟨u, hu, he⟩)) : Allowed env inF o e))
    simp only []
    rcases hd : doUnparsing env inF u h with ⟨r, h1⟩
    rw [hd] at hp
    rcases r with e | b
    · exact hp
    · exact hp

theorem namesStep_emits (env : Env) (inF : String) (o : Opts) (h : List Event) :
    Emits (Allowed env inF o) h (namesStep env inF o h).2 := by
  cases hn : o.namesFile with
  | none =>
    unfold namesStep
    rw [hn]
    exact emits_refl _ _
  | some n =>
    exact (namesStep_spec env inF n o h hn).1.mono
      (fun e he => Or.inr (Or.inr (Or.inr ⟨n, hn, he⟩)))

theorem tryBlock_emits (env : Env) (inF : String) (o : Opts) (h : List Event) :
    Emits (Allowed env inF o) h (tryBlock env inF o h).2 := by
  unfold tryBlock
  refine andThen_emits _ _ h (tokensStep_emits env inF o h) (fun _ h1 => ?_)
  refine andThen_emits _ _ h1 (parseStep_emits env inF o h1) (fun _ h2 => ?_)
  refine andThen_emits _ _ h2 (unparseStep_emits env inF o h2) (fun _ h3 => ?_)
  exact namesStep_emits env inF o h3

theorem andThen_outcome {α : Type} (env : Env) (r : Run α) (k : α → List Event → Run Nat)
    (hk : ∀ a h1, NamesOutcome env (k a h1)) : NamesOutcome env (r.andThen k) := by
  rcases r with ⟨e | a, h1⟩
  · exact Or.inl ⟨e, rfl⟩
  · exact hk a h1

theorem tryBlock_outcome (env : Env) (inF n : String) (o : Opts) (h : List Event)
    (hn : o.namesFile = some n) : NamesOutcome env (tryBlock env inF o h) := by
  unfold tryBlock
  refine andThen_outcome env _ _ (fun _ h1 => ?_)
  refine andThen_outcome env _ _ (fun _ h2 => ?_)
  refine andThen_outcome env _ _ (fun _ h3 => ?_)
  exact (namesStep_spec env inF n o h3 hn).2

theorem DiesWithUsage.exit_one {r : Exit × List Event} (d : DiesWithUsage r) :
    r.1 = Exit.code 1 ∧ ∀ e ∈ r.2, e.isPhase = false := by
  obtain ⟨h, rfl, hp⟩ := d
  refine ⟨rfl, ?_⟩
  intro e he
  simp only [usageAndDie, List.mem_append, List.mem_singleton] at he
  rcases he with he | rfl
  · exact hp e he
  · rfl

theorem main_short (env : Env) (argv : List String) (h : argv.length ≤ 1) :
    main env argv = usageAndDie [] := by
  unfold main
  rw [dif_pos h]

theorem main_long (env : Env) (p a1 : String) (rest : List String) :
    main env (p :: a1 :: rest) =
      if env.inGood [] a1 = true then
        match scanList (a1 :: rest) {} with
        | .error evs => usageAndDie ([Event.probe a1 true] ++ evs)
        | .ok o =>
          match o.inFile with
          | none => usageAndDie [Event.probe a1 true]
          | some inFile =>
            if o.useful = true then
              handlers (tryBlock env inFile o [Event.probe a1 true])
            else
              usageAndDie ([Event.probe a1 true] ++
                [Event.err "Hey, you didn't tell cshantyc to do anything!\n"])
      else
        usageAndDie ([Event.probe a1 false] ++ [Event.err ("Bad path " ++ a1 ++ "\n")]) := by
  unfold main
  rw [dif_neg (by simp)]
  simp only [List.getElem_cons_succ, List.getElem_cons_zero, scanArgs_eq_scanList,
    List.drop_succ_cons, List.drop_zero]
  cases hg : env.inGood [] a1 with
  | false => simp
  | true =>
    simp only [Bool.not_true, Bool.false_eq_true, if_false, if_true]
    cases scanList (a1 :: rest) {} with
    | error evs => rfl
    | ok o =>
      simp only []
      cases o.inFile with
      | none => rfl
      | some inFile =>
        simp only []
        cases o.useful <;> simp

/-- Either the run ends in `usageAndDie`, or the scan completed with an input
file and a useful flag and the run is the `try` block with its handlers. -/
theorem main_cases (env : Env) (argv : List String) :
    DiesWithUsage (main env argv) ∨
    ∃ p a1 rest o inF, argv = p :: a1 :: rest ∧ env.inGood [] a1 = true ∧
      scanList (a1 :: rest) {} = .ok o ∧ o.inFile = some inF ∧ o.useful = true ∧
      main env argv = handlers (tryBlock env inF o [Event.probe a1 true]) := by
  match argv with
  | [] => exact Or.inl ⟨[], main_short env [] (by simp), by simp⟩
  | [p] => exact Or.inl ⟨[], main_short env [p] (by simp), by simp⟩
  | p :: a1 :: rest =>
    rw [main_long]
    cases hg : env.inGood [] a1 with
    | false =>
      left
      simp only [Bool.false_eq_true, if_false]
      exact ⟨_, rfl, by simp [Event.isPhase]⟩
    | true =>
      simp only [if_true]
      cases hs : scanList (a1 :: rest) {} with
      | error evs =>
        left
        refine ⟨_, rfl, ?_⟩
        intro e he
        simp only [List.singleton_append, List.mem_cons] at he
        rcases he with rfl | he
        · rfl
        · exact scanList_error_events _ _ evs hs e he
      | ok o =>
        simp only []
        cases hi : o.inFile with
        | none =>
          left
          exact ⟨_, rfl, by simp [Event.isPhase]⟩
        | some inF =>
          simp only []
          cases hu : o.useful with
          | false =>
            left
            simp only [Bool.false_eq_true, if_false]
            exact ⟨_, rfl, by simp [Event.isPhase]⟩
          | true =>
            right
            exact ⟨p, a1, rest, o, inF, rfl, hg, hs, hi, hu, by simp⟩

theorem scanArgs_one (argv : List String) (o : Opts) :
    scanArgs argv 1 o = scanList argv.tail o := by
  rw [scanArgs_eq_scanList, List.drop_one]

theorem handlers_exit_zero (r : Run Nat) (h : (handlers r).1 = Exit.code 0) :
    r.1 = .ok 0 ∧ (handlers r).2 = r.2 := by
  rcases r with ⟨e | n, t⟩
  · cases e <;> simp [handlers] at h
  · simp only [handlers, Exit.code.injEq] at h
    subst h
    exact ⟨rfl, rfl⟩

theorem handlers_emits (r : Run Nat) :
    Emits (fun e => ∃ s, e = Event.err s) r.2 (handlers r).2 := by
  rcases r with ⟨e | n, t⟩
  · cases e <;> simp [handlers, emits_append]
  · exact emits_refl _ _

theorem handlers_exit_one (r : Run Nat) (h : (∃ e, r.1 = .error e) ∨ r.1 = .ok 1) :
    (handlers r).1 = Exit.code 1 := by
  rcases r with ⟨e | n, t⟩
  · cases e <;> rfl
  · rcases h with ⟨e, he⟩ | he
    · cases he
    · simp only [Except.ok.injEq] at he
      subst he
      rfl

theorem isPhase_of_isBuild (e : Event) (h : e.isBuild = true) : e.isPhase = true := by
  cases e <;> simp [Event.isBuild, Event.isPhase] at h ⊢

theorem isPhase_of_input (e : Event) (p : String) (h : e.input? = some p) :
    e.isPhase = true := by
  cases e <;> simp [Event.input?, Event.isPhase] at h ⊢

/-- The events of a run that reached the `try` block: the probe, what the
block added, and at most one message of a handler. -/
theorem run_events (env : Env) (inF a1 : String) (o : Opts) (e : Event)
    (he : e ∈ (handlers (tryBlock env inF o [Event.probe a1 true])).2) :
    e = Event.probe a1 true ∨ Allowed env inF o e ∨ ∃ s, e = Event.err s := by
  obtain ⟨ev1, h1, p1⟩ := tryBlock_emits env inF o [Event.probe a1 true]
  obtain ⟨ev2, h2, p2⟩ := handlers_emits (tryBlock env inF o [Event.probe a1 true])
  rw [h2, h1] at he
  simp only [List.mem_append, List.mem_singleton] at he
  rcases he with (he | he) | he
  · exact Or.inl he
  · exact Or.inr (Or.inl (p1 e he))
  · exact Or.inr (Or.inr (p2 e he))

theorem allowed_not_build (env : Env) (inF : String) (o : Opts) (e : Event)
    (hn : o.namesFile = none) (ha : Allowed env inF o e) : e.isBuild = false := by
  rcases ha with ⟨t, _, ht⟩ | ⟨_, hp⟩ | ⟨u, _, hu⟩ | ⟨n, hn1, _⟩
  · rcases ht with ⟨g, rfl⟩ | ⟨g, rfl⟩ | ⟨x, rfl⟩ <;> rfl
  · rcases hp with (⟨g, rfl⟩ | rfl) | rfl <;> rfl
  · rcases hu with (⟨g, rfl⟩ | rfl) | rfl | ⟨ast, _, ⟨g, rfl⟩ | ⟨x, rfl⟩⟩ <;> rfl
  · rw [hn] at hn1
    cases hn1

theorem allowed_input (env : Env) (inF : String) (o : Opts) (e : Event) (p : String)
    (ha : Allowed env inF o e) (hp : e.input? = some p) : p = inF := by
  rcases ha with ⟨t, _, ht⟩ | ⟨_, hq⟩ | ⟨u, _, hu⟩ | ⟨n, _, hn⟩
  · rcases ht with ⟨g, rfl⟩ | ⟨g, rfl⟩ | ⟨x, rfl⟩ <;> simp [Event.input?] at hp <;>
      exact hp.symm
  · rcases hq with (⟨g, rfl⟩ | rfl) | rfl <;> simp [Event.input?] at hp <;> exact hp.symm
  · rcases hu with (⟨g, rfl⟩ | rfl) | rfl | ⟨ast, _, ⟨g, rfl⟩ | ⟨x, rfl⟩⟩ <;>
      simp [Event.input?] at hp <;> exact hp.symm
  · rcases hn with (⟨g, rfl⟩ | rfl) | rfl | ⟨ast, _, rfl | ⟨na, h, _, ⟨g, rfl⟩ | ⟨x, rfl⟩⟩⟩ <;>
      simp [Event.input?] at hp <;> exact hp.symm

theorem dies_of_scan_not_ok (env : Env) (argv : List String)
    (h : ∀ o, scanList argv.tail {} = .ok o →
      ∀ inF, o.inFile = some inF → o.useful = true → False) :
    DiesWithUsage (main env argv) := by
  rcases main_cases env argv with hd | ⟨p, a1, rest, o, inF, rfl, hg, hs, hi, hu, hm⟩
  · exact hd
  · exact absurd (h o hs inF hi hu) id

theorem destOf_inj {t F : String} (h : destOf t = destOf F) : t = F := by
  unfold destOf at h
  split at h <;> split at h
  · rename_i h1 h2
    rw [h1, h2]
  · cases h
  · cases h
  · simpa using h

theorem file_eq_destOf {t F : String} (h : Dest.file t = destOf F) : t = F := by
  unfold destOf at h
  split at h
  · cases h
  · simpa using h

theorem allowed_parse_fails (env : Env) (inF F : String) (o : Opts) (e : Event)
    (hfail : ∀ ast, ¬ Parsed env inF ast) (ha : Allowed env inF o e) :
    e.isBuild = false ∧ e.isUnparse = false ∧
      (o.tokensFile ≠ some F → e.writesTo (destOf F) = false) := by
  rcases ha with ⟨t, ht0, ht⟩ | ⟨_, hq⟩ | ⟨u, _, hu⟩ | ⟨n, _, hn⟩
  · have key : ∀ g, o.tokensFile ≠ some F → (g && decide (Dest.file t = destOf F)) = false := by
      intro g hne
      have : ¬ Dest.file t = destOf F := fun h => hne (by rw [ht0, file_eq_destOf h])
      simp [this]
    have key2 : o.tokensFile ≠ some F → decide (destOf t = destOf F) = false := by
      intro hne
      have : ¬ destOf t = destOf F := fun h => hne (by rw [ht0, destOf_inj h])
      simp [this]
    rcases ht with ⟨g, rfl⟩ | ⟨g, rfl⟩ | ⟨x, rfl⟩
    · exact ⟨rfl, rfl, fun _ => rfl⟩
    · exact ⟨rfl, rfl, fun hne => key g hne⟩
    · exact ⟨rfl, rfl, fun hne => key2 hne⟩
  · rcases hq with (⟨g, rfl⟩ | rfl) | rfl <;> exact ⟨rfl, rfl, fun _ => rfl⟩
  · rcases hu with (⟨g, rfl⟩ | rfl) | rfl | ⟨ast, hp, _⟩
    · exact ⟨rfl, rfl, fun _ => rfl⟩
    · exact ⟨rfl, rfl, fun _ => rfl⟩
    · exact ⟨rfl, rfl, fun _ => rfl⟩
    · exact absurd hp (hfail ast)
  · rcases hn with (⟨g, rfl⟩ | rfl) | rfl | ⟨ast, hp, _⟩
    · exact ⟨rfl, rfl, fun _ => rfl⟩
    · exact ⟨rfl, rfl, fun _ => rfl⟩
    · exact ⟨rfl, rfl, fun _ => rfl⟩
    · exact absurd hp (hfail ast)

theorem not_phase_facts (e : Event) (F : String) (h : e.isPhase = false) :
    e.isBuild = false ∧ e.isUnparse = false ∧ e.writesTo (destOf F) = false := by
  cases e <;> simp [Event.isPhase] at h <;> exact ⟨rfl, rfl, rfl⟩

theorem lookupInnermostFirst_none (r : List SymbolTable) (name : String) :
    lookupInnermostFirst r name = none ↔ ∀ t ∈ r, t.resolveLocal name = none := by
  induction r with
  | nil => simp [lookupInnermostFirst]
  | cons t outer ih =>
    cases ht : t.resolveLocal name with
    | none => simp [lookupInnermostFirst, ht, ih]
    | some d => simp [lookupInnermostFirst, ht]

theorem lookupInnermostFirst_some (r : List SymbolTable) (name : String) (d : Nat) :
    lookupInnermostFirst r name = some d ↔
      ∃ inner t outer, r = inner ++ t :: outer ∧ t.resolveLocal name = some d ∧
        ∀ u ∈ inner, u.resolveLocal name = none := by
  induction r with
  | nil => simp [lookupInnermostFirst]
  | cons t0 rest ih =>
    cases ht : t0.resolveLocal name with
    | some d0 =>
      simp only [lookupInnermostFirst, ht, Option.some.injEq]
      constructor
      · rintro rfl
        exact ⟨[], t0, rest, rfl, ht, by simp⟩
      · rintro ⟨inner, t, outer, hr, hd, hin⟩
        cases inner with
        | nil =>
          simp only [List.nil_append, List.cons.injEq] at hr
          rw [← hr.1, ht] at hd
          exact Option.some.inj hd
        | cons u inner1 =>
          simp only [List.cons_append, List.cons.injEq] at hr
          have := hin u (by simp)
          rw [← hr.1, ht] at this
          cases this
    | none =>
      simp only [lookupInnermostFirst, ht, ih]
      constructor
      · rintro ⟨inner, t, outer, hr, hd, hin⟩
        refine ⟨t0 :: inner, t, outer, by simp [hr], hd, ?_⟩
        intro u hu
        simp only [List.mem_cons] at hu
        rcases hu with rfl | hu
        · exact ht
        · exact hin u hu
      · rintro ⟨inner, t, outer, hr, hd, hin⟩
        cases inner with
        | nil =>
          simp only [List.nil_append, List.cons.injEq] at hr
          rw [← hr.1, ht] at hd
          cases hd
        | cons u inner1 =>
          simp only [List.cons_append, List.cons.injEq] at hr
          exact ⟨inner1, t, outer, hr.2, hd, fun v hv => hin v (by simp [hv])⟩

/-! ## The claims -/

/-- C1 (as amended).  When the argument loop ends with a names file recorded
(a `-n` flag followed by its operand), exit status zero is possible only if
`NameAnalysis::build` was called during the run and returned a non-null
analysis at that call. -/
theorem C1_exit_zero_needs_analysis (env : Env) (argv : List String) (o : Opts) (F : String)
    (hscan : scanArgs argv 1 {} = .ok o) (hn : o.namesFile = some F)
    (hz : (main env argv).1 = Exit.code 0) :
    ∃ pre ast na post, (main env argv).2 = pre ++ Event.build ast :: post ∧
      env.build pre ast = .ok (some na) := by
  rcases main_cases env argv with hd | ⟨p, a1, rest, o1, inF, rfl, hg, hs, hi, hu, hm⟩
  · rw [hd.exit_one.1] at hz
    cases hz
  · rw [scanArgs_one, List.tail_cons, hs] at hscan
    simp only [Except.ok.injEq] at hscan
    subst hscan
    rw [hm] at hz ⊢
    obtain ⟨hr, ht⟩ := handlers_exit_zero _ hz
    rw [ht]
    rcases tryBlock_outcome env inF F o1 [Event.probe a1 true] hn with
      ⟨e, he⟩ | ⟨he, _⟩ | ⟨_, pre, ast, na, post, h1, h2⟩
    · rw [he] at hr
      cases hr
    · rw [he] at hr
      cases hr
    · exact ⟨pre, ast, na, post, h1, h2⟩

/-- C1, the claim as stated fails: `cshantyc prog.cshanty -p` exits with
status 0 although `NameAnalysis::build` is never called. -/
theorem C1_counterexample :
    (main envAllGood ["cshantyc", "prog.cshanty", "-p"]).1 = Exit.code 0 ∧
    ∀ e ∈ (main envAllGood ["cshantyc", "prog.cshanty", "-p"]).2, e.isBuild = false := by
  have h : main envAllGood ["cshantyc", "prog.cshanty", "-p"] =
      (Exit.code 0, [Event.probe "prog.cshanty" true, Event.openIn "prog.cshanty" true,
        Event.parserRun "prog.cshanty"]) := by
    simp [main, scanArgs, charAt, envAllGood, tryBlock, Run.andThen, tokensStep, parseStep,
      unparseStep, namesStep, parse, handlers]
  rw [h]
  simp [Event.isBuild]

/-- C1 at `cshantyc prog.cshanty -n out.txt`: the run exits with status 0 and
contains a call of `build` that returned an analysis. -/
theorem C1_witness :
    ∃ pre ast na post,
      (main envAllGood ["cshantyc", "prog.cshanty", "-n", "out.txt"]).2 =
        pre ++ Event.build ast :: post ∧
      envAllGood.build pre ast = .ok (some na) :=
  C1_exit_zero_needs_analysis envAllGood ["cshantyc", "prog.cshanty", "-n", "out.txt"]
    { inFile := some "prog.cshanty", namesFile := some "out.txt", useful := true } "out.txt"
    (by simp [scanArgs, charAt]) rfl
    (by simp [main, scanArgs, charAt, envAllGood, tryBlock, Run.andThen, tokensStep, parseStep,
      unparseStep, namesStep, doNameAnalysis, parse, outputAST, handlers])

/-- C2 (as amended).  Let the first argument name a readable file, let the
argument loop end with nothing but the input file `inF` and the names file
`F` recorded, let `inF` be readable and parse to `ast`, and let `F` open for
output (when it is a file and not `--`).  If `build` returns an analysis `na`
and unparsing `na.ast` at indentation 0 yields the text `c` without raising
an error object, the run is: probe, open and parse `inF`, `build`, open `F`
(unless `F` is `--`), `c` sent to `F` (to standard output when `F` is `--`),
exit status 0.  If `build` returns null, the run is: probe, open and parse
`inF`, `build`, the message `Name Analysis Failed`, exit status 1, and no
event writes to `F`. -/
theorem C2_names_only_run (env : Env) (argv : List String) (a1 inF F : String) (ast : Nat)
    (ha1 : argv[1]? = some a1) (hprobe : env.inGood [] a1 = true)
    (hscan : scanArgs argv 1 {} =
      .ok { inFile := some inF, namesFile := some F, useful := true })
    (hin : ∀ h, env.inGood h inF = true)
    (hparse : ∀ h, env.parserParse h inF = .ok (0, some ast))
    (hout : F ≠ "--" → ∀ h, env.outGood h F = true) :
    (∀ na c, (∀ h, env.build h ast = .ok (some na)) →
      (∀ h, env.unparse h na.ast 0 = (c, none)) →
      main env argv = (Exit.code 0,
        [Event.probe a1 true, Event.openIn inF true, Event.parserRun inF, Event.build ast] ++
          (if F = "--" then [] else [Event.openOut F true]) ++
          [Event.unparse na.ast 0 (destOf F) c])) ∧
    ((∀ h, env.build h ast = .ok none) →
      main env argv = (Exit.code 1,
        [Event.probe a1 true, Event.openIn inF true, Event.parserRun inF, Event.build ast,
          Event.err "Name Analysis Failed\n"]) ∧
      ∀ e ∈ (main env argv).2, e.writesTo (destOf F) = false) := by
  match argv, ha1, hscan with
  | p :: b :: rest, ha1, hscan =>
    simp only [List.getElem?_cons_succ, List.getElem?_cons_zero, Option.some.injEq] at ha1
    subst ha1
    rw [scanArgs_one, List.tail_cons] at hscan
    constructor
    · intro na c hb hu
      rw [main_long, if_pos hprobe, hscan]
      by_cases hF : F = "--"
      · simp [tryBlock, Run.andThen, tokensStep, parseStep, unparseStep, namesStep,
          doNameAnalysis, parse, outputAST, handlers, hin, hparse, hb, hu, hF, destOf]
      · simp [tryBlock, Run.andThen, tokensStep, parseStep, unparseStep, namesStep,
          doNameAnalysis, parse, outputAST, handlers, hin, hparse, hout hF, hb, hu, hF, destOf]
    · intro hb
      have hm : main env (p :: b :: rest) = (Exit.code 1,
          [Event.probe b true, Event.openIn inF true, Event.parserRun inF, Event.build ast,
            Event.err "Name Analysis Failed\n"]) := by
        rw [main_long, if_pos hprobe, hscan]
        simp [tryBlock, Run.andThen, tokensStep, parseStep, unparseStep, namesStep,
          doNameAnalysis, parse, handlers, hin, hparse, hb]
      refine ⟨hm, ?_⟩
      rw [hm]
      intro e he
      simp only [List.mem_cons, List.mem_singleton, List.not_mem_nil, or_false] at he
      rcases he with rfl | rfl | rfl | rfl | rfl <;> rfl

/-- C2, the claim as stated fails: in `cshantyc -n out.txt prog.cshanty` the
only action flag is `-n out.txt`, the input file is readable and parses, the
destination opens and `build` returns an analysis, yet the run stops at the
probe of `-n` with status 1 and writes nothing. -/
theorem C2_counterexample :
    scanArgs ["cshantyc", "-n", "out.txt", "prog.cshanty"] 1 {} =
      .ok { inFile := some "prog.cshanty", namesFile := some "out.txt", useful := true } ∧
    (∀ h, envOnlyInput.inGood h "prog.cshanty" = true) ∧
    (∀ h, envOnlyInput.parserParse h "prog.cshanty" = .ok (0, some 1)) ∧
    (∀ h, envOnlyInput.outGood h "out.txt" = true) ∧
    (∀ h, envOnlyInput.build h 1 = .ok (some ⟨1⟩)) ∧
    (∀ h, envOnlyInput.unparse h 1 0 = ("program", none)) ∧
    main envOnlyInput ["cshantyc", "-n", "out.txt", "prog.cshanty"] =
      (Exit.code 1, [Event.probe "-n" false, Event.err "Bad path -n\n",
        Event.err usageText]) := by
  refine ⟨by simp [scanArgs, charAt], fun _ => rfl, fun _ => rfl, fun _ => rfl, fun _ => rfl,
    fun _ => rfl, ?_⟩
  simp [main, envOnlyInput, usageAndDie]

/-- C2 at `cshantyc prog.cshanty -n out.txt`: the canonical form is written
to `out.txt` and the exit status is 0. -/
theorem C2_witness :
    main envAllGood ["cshantyc", "prog.cshanty", "-n", "out.txt"] =
      (Exit.code 0,
        [Event.probe "prog.cshanty" true, Event.openIn "prog.cshanty" true,
          Event.parserRun "prog.cshanty", Event.build 1] ++
          (if "out.txt" = "--" then [] else [Event.openOut "out.txt" true]) ++
          [Event.unparse 1 0 (destOf "out.txt") "program"]) :=
  (C2_names_only_run envAllGood ["cshantyc", "prog.cshanty", "-n", "out.txt"]
    "prog.cshanty" "prog.cshanty" "out.txt" 1 rfl rfl (by simp [scanArgs, charAt])
    (fun _ => rfl) (fun _ => rfl) (fun _ _ => rfl)).1 ⟨1⟩ "program" (fun _ => rfl)
    (fun _ => rfl)

/-- C3 (as amended).  When `parser.parse()` returns a non-zero code,
`doNameAnalysis` returns null after opening the input and running the parser,
without calling `NameAnalysis::build`; and a run whose argument loop recorded
a names file `F`, on an input for which the parser returns a non-zero code at
every call, exits with status 1, never calls `build`, never unparses, and
writes nothing to `F` unless `F` is also the path recorded for the token dump. -/
theorem C3_parse_failure_stops_analysis (env : Env) :
    (∀ path h code root, env.inGood h path = true →
      env.parserParse (h ++ [Event.openIn path true]) path = .ok (code, root) → code ≠ 0 →
      doNameAnalysis env path h =
        (.ok none, h ++ [Event.openIn path true, Event.parserRun path])) ∧
    (∀ argv o F, scanArgs argv 1 {} = .ok o → o.namesFile = some F →
      (∀ inF, o.inFile = some inF →
        ∀ h, ∃ code root, env.parserParse h inF = .ok (code, root) ∧ code ≠ 0) →
      (main env argv).1 = Exit.code 1 ∧
      (∀ e ∈ (main env argv).2, e.isBuild = false ∧ e.isUnparse = false) ∧
      (o.tokensFile ≠ some F → ∀ e ∈ (main env argv).2, e.writesTo (destOf F) = false)) := by
  constructor
  · intro path h code root hg hp hc
    unfold doNameAnalysis parse
    simp [hg, hp, hc]
  · intro argv o F hscan hn hfail
    rcases main_cases env argv with hd | ⟨p, a1, rest, o1, inF, rfl, hg, hs, hi, hu, hm⟩
    · refine ⟨hd.exit_one.1, fun e he => ?_, fun _ e he => ?_⟩
      · exact ⟨(not_phase_facts e F (hd.exit_one.2 e he)).1,
          (not_phase_facts e F (hd.exit_one.2 e he)).2.1⟩
      · exact (not_phase_facts e F (hd.exit_one.2 e he)).2.2
    · rw [scanArgs_one, List.tail_cons, hs] at hscan
      simp only [Except.ok.injEq] at hscan
      subst hscan
      have hnp : ∀ ast, ¬ Parsed env inF ast := by
        rintro ast ⟨h, hp⟩
        obtain ⟨code, root, h1, h2⟩ := hfail inF hi h
        rw [hp] at h1
        simp only [Except.ok.injEq, Prod.mk.injEq] at h1
        exact h2 h1.1.symm
      have hev : ∀ e ∈ (main env (p :: a1 :: rest)).2,
          e.isBuild = false ∧ e.isUnparse = false ∧
            (o1.tokensFile ≠ some F → e.writesTo (destOf F) = false) := by
        intro e he
        rw [hm] at he
        rcases run_events env inF a1 o1 e he with rfl | ha | ⟨s, rfl⟩
        · exact ⟨rfl, rfl, fun _ => rfl⟩
        · exact allowed_parse_fails env inF F o1 e hnp ha
        · exact ⟨rfl, rfl, fun _ => rfl⟩
      refine ⟨?_, fun e he => ⟨(hev e he).1, (hev e he).2.1⟩, fun hne e he => (hev e he).2.2 hne⟩
      rw [hm]
      rcases tryBlock_outcome env inF F o1 [Event.probe a1 true] hn with
        he | ⟨he, _⟩ | ⟨_, pre, ast, na, post, h1, _⟩
      · exact handlers_exit_one _ (Or.inl he)
      · exact handlers_exit_one _ (Or.inr he)
      · exfalso
        obtain ⟨evs, h2, pall⟩ := tryBlock_emits env inF o1 [Event.probe a1 true]
        have hmem : Event.build ast ∈ [Event.probe a1 true] ++ evs := by
          rw [← h2, h1]
          simp
        simp only [List.singleton_append, List.mem_cons] at hmem
        rcases hmem with hbad | hmem
        · cases hbad
        · have := (allowed_parse_fails env inF F o1 _ hnp (pall _ hmem)).1
          cases this

/-- C3, the claim as stated fails: in
`cshantyc prog.cshanty -t out.txt -n out.txt` the parser returns a non-zero
code and the run exits with status 1, but the token dump has been written to
`out.txt`. -/
theorem C3_counterexample :
    (∀ h, envParseFails.parserParse h "prog.cshanty" = .ok (1, none)) ∧
    main envParseFails ["cshantyc", "prog.cshanty", "-t", "out.txt", "-n", "out.txt"] =
      (Exit.code 1,
        [Event.probe "prog.cshanty" true, Event.openIn "prog.cshanty" true,
          Event.openOut "out.txt" true,
          Event.tokens "prog.cshanty" (Dest.file "out.txt") "tokens",
          Event.openIn "prog.cshanty" true, Event.parserRun "prog.cshanty",
          Event.err "Name Analysis Failed\n"]) ∧
    (Event.tokens "prog.cshanty" (Dest.file "out.txt") "tokens").writesTo
      (destOf "out.txt") = true := by
  refine ⟨fun _ => rfl, ?_, by decide⟩
  simp [main, scanArgs, charAt, envParseFails, tryBlock, Run.andThen, tokensStep, parseStep,
    unparseStep, namesStep, doNameAnalysis, parse, writeTokenStream, handlers]

/-- C3 at `cshantyc prog.cshanty -n out.txt` with a failing parser: status 1,
no `build`, no unparse, nothing written to `out.txt`. -/
theorem C3_witness :
    (main envParseFails ["cshantyc", "prog.cshanty", "-n", "out.txt"]).1 = Exit.code 1 ∧
    (∀ e ∈ (main envParseFails ["cshantyc", "prog.cshanty", "-n", "out.txt"]).2,
      e.isBuild = false ∧ e.isUnparse = false) ∧
    (∀ e ∈ (main envParseFails ["cshantyc", "prog.cshanty", "-n", "out.txt"]).2,
      e.writesTo (destOf "out.txt") = false) :=
  have h := (C3_parse_failure_stops_analysis envParseFails).2
    ["cshantyc", "prog.cshanty", "-n", "out.txt"]
    { inFile := some "prog.cshanty", namesFile := some "out.txt", useful := true } "out.txt"
    (by simp [scanArgs, charAt]) rfl
    (fun _ _ _ => ⟨1, none, rfl, by decide⟩)
  ⟨h.1, h.2.1, h.2.2 (by decide)⟩

/-- C4.  When no `-n` flag stands in flag position, or more generally when the
argument loop leaves `namesFile` null, no run calls `NameAnalysis::build`,
whatever `-t`, `-p` and `-u` flags are given. -/
theorem C4_no_names_flag_no_build (env : Env) (argv : List String)
    (h : (∀ x ∈ roled argv, x.2 = Role.flag → secondIs x.1 'n' = false) ∨
      (∀ o, scanArgs argv 1 {} = .ok o → o.namesFile = none)) :
    ∀ e ∈ (main env argv).2, e.isBuild = false := by
  intro e he
  rcases main_cases env argv with hd | ⟨p, a1, rest, o, inF, rfl, hg, hs, hi, hu, hm⟩
  · have := hd.exit_one.2 e he
    cases hb : e.isBuild with
    | false => rfl
    | true => rw [isPhase_of_isBuild e hb] at this; cases this
  · have hnone : o.namesFile = none := by
      rcases h with h | h
      · exact (scanList_ok_spec _ _ o hs).2.2.2.2 h
      · exact h o (by rw [scanArgs_one, List.tail_cons, hs])
    rw [hm] at he
    rcases run_events env inF a1 o e he with rfl | ha | ⟨s, rfl⟩
    · rfl
    · exact allowed_not_build env inF o e hnone ha
    · rfl

/-- C4 at `cshantyc prog.cshanty -t toks.txt -p -u out.txt`: no call of
`build`. -/
theorem C4_witness :
    (main envAllGood ["cshantyc", "prog.cshanty", "-t", "toks.txt", "-p", "-u",
      "out.txt"]).2.filter Event.isBuild = [] :=
  List.filter_eq_nil_iff.2 (fun e he => by
    rw [C4_no_names_flag_no_build envAllGood
      ["cshantyc", "prog.cshanty", "-t", "toks.txt", "-p", "-u", "out.txt"]
      (Or.inl (by decide)) e he]
    simp)

/-- C5.  For every scope stack (tables listed outermost first, innermost
last) and every name: `lookup` is "not found" exactly when no table on the
stack declares the name; it returns `d` exactly when some table declares the
name as `d` and no table nested inside that one declares the name at all; so
a table pushed innermost that declares the name hides every outer
declaration of it. -/
theorem C5_lookup_innermost_first (s : ScopeStack) (name : String) :
    (s.lookup name = none ↔ ∀ t ∈ s.tables, t.resolveLocal name = none) ∧
    (∀ d, s.lookup name = some d ↔
      ∃ outer t inner, s.tables = outer ++ t :: inner ∧ t.resolveLocal name = some d ∧
        ∀ u ∈ inner, u.resolveLocal name = none) ∧
    (∀ t d, t.resolveLocal name = some d →
      (ScopeStack.mk (s.tables ++ [t])).lookup name = some d) := by
  have h2 : ∀ (s : ScopeStack) (d : Nat), s.lookup name = some d ↔
      ∃ outer t inner, s.tables = outer ++ t :: inner ∧ t.resolveLocal name = some d ∧
        ∀ u ∈ inner, u.resolveLocal name = none := by
    intro s d
    unfold ScopeStack.lookup
    rw [lookupInnermostFirst_some]
    constructor
    · rintro ⟨inner, t, outer, hr, hd, hin⟩
      refine ⟨outer.reverse, t, inner.reverse, ?_, hd, fun u hu => hin u (by simpa using hu)⟩
      have := congrArg List.reverse hr
      simpa using this
    · rintro ⟨outer, t, inner, hr, hd, hin⟩
      refine ⟨inner.reverse, t, outer.reverse, ?_, hd, fun u hu => hin u (by simpa using hu)⟩
      rw [hr]
      simp
  refine ⟨?_, h2 s, ?_⟩
  · unfold ScopeStack.lookup
    rw [lookupInnermostFirst_none]
    simp
  · intro t d ht
    rw [h2]
    exact ⟨s.tables, t, [], rfl, ht, by simp⟩

/-- C5 on a stack where `x` is declared in both scopes and `y` only in the
outer one: `x` resolves to the inner declaration exactly by the
characterisation of the claim. -/
theorem C5_witness :
    stackShadow.lookup "x" = some 20 ∧ stackShadow.lookup "y" = some 11 ∧
    stackShadow.lookup "z" = none ∧
    (stackShadow.lookup "x" = some 20 ↔
      ∃ outer t inner, stackShadow.tables = outer ++ t :: inner ∧
        t.resolveLocal "x" = some 20 ∧ ∀ u ∈ inner, u.resolveLocal "x" = none) :=
  ⟨by decide, by decide, by decide, (C5_lookup_innermost_first stackShadow "x").2.1 20⟩

/-- C6.  Let the first argument name a readable file and let `a` be an
argument in flag position whose second character is none of `t`, `p`, `u`,
`n`.  Then the run exits with status 1 and no phase runs.  If moreover the
scan meets `a`, that is, every flag before it is an action flag and at most
one argument before it is in input-file position, the run is exactly: the
probe of the first argument, `Unrecognized argument: ` followed by `a`, the
usage text, and `exit(1)`. -/
theorem C6_unrecognized_flag (env : Env) (argv : List String) (a1 a : String)
    (ha1 : argv[1]? = some a1) (hg : env.inGood [] a1 = true)
    (hmem : (a, Role.flag) ∈ roled argv) (hbad : isAction a = false) :
    ((main env argv).1 = Exit.code 1 ∧ ∀ e ∈ (main env argv).2, e.isPhase = false) ∧
    (∀ pre post, roled argv = pre ++ (a, Role.flag) :: post →
      (∀ x ∈ pre, x.2 = Role.flag → isAction x.1 = true) → infileCount pre ≤ 1 →
      main env argv = (Exit.code 1,
        [Event.probe a1 true, Event.err "Unrecognized argument: ", Event.err (a ++ "\n"),
          Event.err usageText])) := by
  constructor
  · refine (dies_of_scan_not_ok env argv ?_).exit_one
    intro o hs inF _ _
    have := (scanList_ok_spec _ _ o hs).1 (a, Role.flag) hmem rfl
    rw [hbad] at this
    cases this
  · intro pre post hr hflags hfiles
    match argv, ha1, hr with
    | p :: b :: rest, ha1, hr =>
      simp only [List.getElem?_cons_succ, List.getElem?_cons_zero, Option.some.injEq] at ha1
      subst ha1
      have hs := scanList_meets (b :: rest) {} pre a post hr hbad ⟨hflags, by simpa using hfiles⟩
      rw [main_long, if_pos hg, hs]
      rfl

/-- C6 at `cshantyc prog.cshanty -p -`: the scan meets the bare `-` and the
run is the report of the unrecognized argument. -/
theorem C6_witness :
    main envAllGood ["cshantyc", "prog.cshanty", "-p", "-"] =
      (Exit.code 1,
        [Event.probe "prog.cshanty" true, Event.err "Unrecognized argument: ",
          Event.err ("-" ++ "\n"), Event.err usageText]) :=
  (C6_unrecognized_flag envAllGood ["cshantyc", "prog.cshanty", "-p", "-"]
    "prog.cshanty" "-" rfl rfl (by decide) (by decide)).2
    [("prog.cshanty", Role.infile), ("-p", Role.flag)] [] (by decide) (by decide) (by decide)

/-- C7.  With two or more arguments in input-file position the run exits with
status 1 and no phase runs; and in every run, each input path a phase opens,
scans or parses is the first argument in input-file position. -/
theorem C7_single_input_file (env : Env) (argv : List String) :
    (2 ≤ (infiles argv).length →
      (main env argv).1 = Exit.code 1 ∧ ∀ e ∈ (main env argv).2, e.isPhase = false) ∧
    (∀ e ∈ (main env argv).2, ∀ p, e.input? = some p → firstInfile argv = some p) := by
  constructor
  · intro h2
    refine (dies_of_scan_not_ok env argv ?_).exit_one
    intro o hs inF _ _
    have := ((scanList_ok_spec _ _ o hs).2.1 rfl).2
    have he : infiles argv = infilesOf argv.tail := rfl
    rw [he] at h2
    omega
  · intro e he p hp
    rcases main_cases env argv with hd | ⟨q, a1, rest, o, inF, rfl, hg, hs, hi, hu, hm⟩
    · have := hd.exit_one.2 e he
      rw [isPhase_of_input e p hp] at this
      cases this
    · have hfirst : o.inFile = firstInfile (q :: a1 :: rest) :=
        ((scanList_ok_spec _ _ o hs).2.1 rfl).1
      rw [← hfirst, hi]
      rw [hm] at he
      rcases run_events env inF a1 o e he with rfl | ha | ⟨s, rfl⟩
      · simp [Event.input?] at hp
      · rw [allowed_input env inF o e p ha hp]
      · simp [Event.input?] at hp

/-- C7 at `cshantyc a.cshanty b.cshanty -p`: two input files, status 1 and no
phase. -/
theorem C7_witness :
    (main envAllGood ["cshantyc", "a.cshanty", "b.cshanty", "-p"]).1 = Exit.code 1 ∧
    ∀ e ∈ (main envAllGood ["cshantyc", "a.cshanty", "b.cshanty", "-p"]).2,
      e.isPhase = false :=
  (C7_single_input_file envAllGood ["cshantyc", "a.cshanty", "b.cshanty", "-p"]).1
    (by decide)

/-- C8.  With no action flag in flag position the run exits with status 1 and
no phase runs; with an input file alone (readable, not beginning with `-`)
the run is the probe, the message that nothing was asked for, the usage text
and `exit(1)`; and a run that does not end in `usageAndDie`, or in which some
phase event occurs, had an action flag in flag position and an argument in
input-file position. -/
theorem C8_nothing_to_do (env : Env) (argv : List String) :
    ((∀ x ∈ roled argv, x.2 = Role.flag → isAction x.1 = false) →
      (main env argv).1 = Exit.code 1 ∧ ∀ e ∈ (main env argv).2, e.isPhase = false) ∧
    (∀ p f, argv = [p, f] → beginsWithDash f = false → env.inGood [] f = true →
      main env argv = (Exit.code 1,
        [Event.probe f true, Event.err "Hey, you didn't tell cshantyc to do anything!\n",
          Event.err usageText])) ∧
    ((¬ DiesWithUsage (main env argv) ∨ ∃ e ∈ (main env argv).2, e.isPhase = true) →
      (∃ x ∈ roled argv, x.2 = Role.flag ∧ isAction x.1 = true) ∧
      (∃ x ∈ roled argv, x.2 = Role.infile)) := by
  refine ⟨?_, ?_, ?_⟩
  · intro hno
    refine (dies_of_scan_not_ok env argv ?_).exit_one
    intro o hs inF _ hu
    rcases (scanList_ok_spec _ _ o hs).2.2.2.1 hu with h | ⟨x, hx, hf, hact⟩
    · cases h
    · rw [hno x hx hf] at hact
      cases hact
  · rintro p f rfl hf hg
    have h0 : ¬ charAt f 0 = '-' := by
      rw [← beginsWithDash_iff, hf]
      simp
    rw [main_long, if_pos hg, scanList.eq_def]
    simp only [if_neg h0, if_true, scanList]
    rfl
  · intro hreach
    have hnd : ¬ DiesWithUsage (main env argv) := by
      rcases hreach with h | ⟨e, he, hp⟩
      · exact h
      · intro hd
        rw [hd.exit_one.2 e he] at hp
        cases hp
    rcases main_cases env argv with hd | ⟨q, a1, rest, o, inF, rfl, hg, hs, hi, hu, hm⟩
    · exact absurd hd hnd
    · have hspec := scanList_ok_spec _ _ o hs
      constructor
      · rcases hspec.2.2.2.1 hu with h | h
        · cases h
        · exact h
      · have hfirst := (hspec.2.1 rfl).1
        rw [hi] at hfirst
        have hmemf : inF ∈ infilesOf (a1 :: rest) := List.mem_of_mem_head? hfirst.symm
        simp only [infilesOf, List.mem_map, List.mem_filter, decide_eq_true_eq] at hmemf
        obtain ⟨x, ⟨hx, hr⟩, _⟩ := hmemf
        exact ⟨x, hx, hr⟩

/-- C8 at `cshantyc prog.cshanty`: an input file alone, status 1 and no
phase. -/
theorem C8_witness :
    (main envAllGood ["cshantyc", "prog.cshanty"]).1 = Exit.code 1 ∧
    ∀ e ∈ (main envAllGood ["cshantyc", "prog.cshanty"]).2, e.isPhase = false :=
  (C8_nothing_to_do envAllGood ["cshantyc", "prog.cshanty"]).1 (by decide)

end cshanty
